import Mathlib

/-!
Verification development for the ord inscription codec and the
commit/reveal inscribe planner.

The envelope codec (`src/inscription.rs`) is embedded at byte level:
scripts are lists of byte values, the script builder (`push_slice`,
`push_opcode` of rust-bitcoin 0.29) and the non-minimal `Instructions`
iterator are modelled explicitly, and the inscription parser is a direct
translation of `InscriptionParser`.

The planner (`Inscribe::create_inscription_transactions` in
`src/subcommand/wallet/inscribe.rs`) is embedded with its external
collaborators (transaction builder, fee rate, weight and dust
measurement, txid, schnorr signing, secp256k1 key arithmetic) given as
parameters of a `Collab` record or as executable stand-ins that follow
the library contracts; the taproot key arithmetic stand-ins preserve
exactly the structure the planner relies on (the same key and merkle
root give the same output key).  The planner model additionally returns
the list of taproot script-spend sighash invocations it performed so
that the signing behaviour is observable.
-/

deriving instance DecidableEq for Except

namespace OrdSpec

/-- A decoded script instruction of rust-bitcoin's `Instruction`: either a
data push or a single (non-push) opcode byte. -/
inductive Instr where
  | pushBytes (data : List Nat)
  | op (code : Nat)
deriving DecidableEq

/-- The only script-decode error the non-minimal `Instructions` iterator can
produce on 64-bit targets. -/
inductive ScriptError where
  | earlyEndOfScript
deriving DecidableEq

/-- `InscriptionError` from `src/inscription.rs`. -/
inductive InscriptionError where
  | emptyWitness
  | invalidInscription
  | keyPathSpend
  | noInscription
  | script (err : ScriptError)
  | unrecognizedEvenField
deriving DecidableEq

/-- `Inscription` from `src/inscription.rs`: optional body and optional
content type, both byte strings.  Field order matches the source. -/
structure Inscription where
  body : Option (List Nat)
  contentType : Option (List Nat)
deriving DecidableEq

/-- `TransactionInscription` from `src/inscription.rs`. -/
structure TransactionInscription where
  inscription : Inscription
  txInIndex : Nat
  txInOffset : Nat
deriving DecidableEq

/-- The protocol tag `PROTOCOL_ID = b"ord"`. -/
abbrev protocolId : List Nat := [111, 114, 100]

/-- `CONTENT_TYPE_TAG = &[1]`. -/
abbrev contentTypeTag : List Nat := [1]

/-- `CURSED_TAG = &[66]`. -/
abbrev cursedTag : List Nat := [66]

/-- The bytes of the string `"cursed"` pushed after the cursed tag. -/
abbrev cursedTagValue : List Nat := [99, 117, 114, 115, 101, 100]

/-- `BODY_TAG = &[]`. -/
abbrev bodyTag : List Nat := []

/-- Opcode byte of `OP_IF`. -/
abbrev opIf : Nat := 99

/-- Opcode byte of `OP_ENDIF`. -/
abbrev opEndif : Nat := 104

/-- Opcode byte of `OP_CHECKSIG`. -/
abbrev opChecksig : Nat := 172

/-- `TAPROOT_ANNEX_PREFIX = 0x50`. -/
abbrev annexByte : Nat := 80

/-- Rust's `slice::chunks n`: the list cut into consecutive pieces of `n`
elements, the last piece possibly shorter; the empty list has no chunks.
Written in closed form so that it evaluates by kernel reduction. -/
def chunksOf (n : Nat) (l : List Nat) : List (List Nat) :=
  (List.range ((l.length + n - 1) / n)).map fun i => (l.drop (i * n)).take n

/-- rust-bitcoin 0.29 `Builder::push_slice`: minimal push encoding with
`OP_PUSHBYTES_n` below 76 bytes, then `OP_PUSHDATA1/2/4` with
little-endian length.  Defined for data shorter than `2^32` bytes (the
Rust code panics beyond that). -/
def pushSlice (data : List Nat) : List Nat :=
  if data.length < 76 then data.length :: data
  else if data.length < 256 then 76 :: data.length :: data
  else if data.length < 65536 then
    77 :: data.length % 256 :: data.length / 256 :: data
  else
    78 :: data.length % 256 :: data.length / 256 % 256 ::
      data.length / 65536 % 256 :: data.length / 16777216 :: data

/-- One pass of rust-bitcoin 0.29's non-minimal `Instructions` iterator,
with explicit fuel (each step consumes at least one byte, so fuel equal
to the byte count always suffices).  A decode error kills the iterator,
so it is the last element of the produced sequence. -/
def decodeGo : Nat → List Nat → List (Except ScriptError Instr)
  | 0, _ => []
  | _ + 1, [] => []
  | fuel + 1, b :: rest =>
    if b ≤ 75 then
      if rest.length < b then [.error .earlyEndOfScript]
      else .ok (.pushBytes (rest.take b)) :: decodeGo fuel (rest.drop b)
    else if b = 76 then
      match rest with
      | [] => [.error .earlyEndOfScript]
      | n0 :: rest2 =>
        if rest2.length < n0 then [.error .earlyEndOfScript]
        else .ok (.pushBytes (rest2.take n0)) :: decodeGo fuel (rest2.drop n0)
    else if b = 77 then
      match rest with
      | n0 :: n1 :: rest2 =>
        if rest2.length < n0 + 256 * n1 then [.error .earlyEndOfScript]
        else
          .ok (.pushBytes (rest2.take (n0 + 256 * n1))) ::
            decodeGo fuel (rest2.drop (n0 + 256 * n1))
      | _ => [.error .earlyEndOfScript]
    else if b = 78 then
      match rest with
      | n0 :: n1 :: n2 :: n3 :: rest2 =>
        if rest2.length < n0 + 256 * (n1 + 256 * (n2 + 256 * n3)) then
          [.error .earlyEndOfScript]
        else
          .ok (.pushBytes (rest2.take (n0 + 256 * (n1 + 256 * (n2 + 256 * n3))))) ::
            decodeGo fuel (rest2.drop (n0 + 256 * (n1 + 256 * (n2 + 256 * n3))))
      | _ => [.error .earlyEndOfScript]
    else .ok (.op b) :: decodeGo fuel rest

/-- `Script::instructions()`: the full decoded instruction sequence of a
script given as bytes. -/
def decodeInstrs (bytes : List Nat) : List (Except ScriptError Instr) :=
  decodeGo bytes.length bytes

/-- `Inscription::append_reveal_script_to_builder`: append the envelope
`OP_FALSE OP_IF "ord" [tags] [body] OP_ENDIF` to a builder (a byte
list).  `push_opcode(OP_FALSE)` emits the byte `0x00`. -/
def appendRevealScriptToBuilder (ins : Inscription) (cursed : Bool)
    (builder : List Nat) : List Nat :=
  builder ++ [0, opIf] ++ pushSlice protocolId ++
    (match ins.contentType with
     | some ct => pushSlice contentTypeTag ++ pushSlice ct
     | none => []) ++
    (if cursed then pushSlice cursedTag ++ pushSlice cursedTagValue else []) ++
    (match ins.body with
     | some b => pushSlice bodyTag ++ (chunksOf 520 b).flatMap pushSlice
     | none => []) ++
    [opEndif]

/-- The decoded instruction stream the parser works on. -/
abbrev InstrSeq := List (Except ScriptError Instr)

/-- The three-instruction envelope header
`[OP_FALSE (an empty push), OP_IF, PUSH("ord")]`. -/
def headerInstr : Nat → Instr
  | 0 => .pushBytes []
  | 1 => .op opIf
  | _ => .pushBytes protocolId

/-- `InscriptionParser::advance_into_inscription_envelope` as a state
machine: `k` counts how many header instructions matched so far; a
mismatching instruction is consumed and matching restarts at the next
instruction (exactly the restart behaviour of the Rust loop around
`match_instructions`). -/
def aieGo : InstrSeq → Nat → (Except InscriptionError Unit) × InstrSeq
  | [], _ => (.error .noInscription, [])
  | .error e :: rest, _ => (.error (.script e), rest)
  | .ok i :: rest, k =>
    if i = headerInstr k then
      if k = 2 then (.ok (), rest) else aieGo rest (k + 1)
    else aieGo rest 0

/-- `advance_into_inscription_envelope` applied from a fresh attempt. -/
def advanceIntoEnvelope (s : InstrSeq) : (Except InscriptionError Unit) × InstrSeq :=
  aieGo s 0

/-- The body-reading loop:
`while !accept(OP_ENDIF) { body.extend(expect_push()) }`.  `accept` peeks
(so a decode error is reported without being consumed), `expect_push`
consumes; a non-push non-`OP_ENDIF` instruction is consumed by
`expect_push` and is `InvalidInscription`; end of stream makes
`expect_push` fail with the internal `NoInscription` sentinel. -/
def parseBody : InstrSeq → List Nat → (Except InscriptionError (List Nat)) × InstrSeq
  | [], _ => (.error .noInscription, [])
  | .error e :: rest, _ => (.error (.script e), .error e :: rest)
  | .ok (.op c) :: rest, acc =>
    if c = opEndif then (.ok acc, rest)
    else (.error .invalidInscription, rest)
  | .ok (.pushBytes bs) :: rest, acc => parseBody rest (acc ++ bs)

/-- Association-list model of the `BTreeMap` of envelope fields.  Keys are
never inserted twice (the parser checks for duplicates first), so a plain
append-insert is faithful. -/
def insertField (fields : List (List Nat × List Nat)) (key value : List Nat) :
    List (List Nat × List Nat) :=
  fields ++ [(key, value)]

/-- `BTreeMap::contains_key`. -/
def containsKey (fields : List (List Nat × List Nat)) (key : List Nat) : Bool :=
  fields.any fun kv => kv.1 = key

/-- `BTreeMap::remove` returning the removed value (`get` part). -/
def lookupField (fields : List (List Nat × List Nat)) (key : List Nat) :
    Option (List Nat) :=
  (fields.find? fun kv => kv.1 = key).map Prod.snd

/-- `BTreeMap::remove` (the removal part). -/
def removeField (fields : List (List Nat × List Nat)) (key : List Nat) :
    List (List Nat × List Nat) :=
  fields.filter fun kv => ¬ kv.1 = key

/-- The field loop of `parse_one_inscription`: read tagged fields until the
body tag (which consumes the rest of the envelope) or `OP_ENDIF`.  A
duplicate non-body tag is `InvalidInscription`; a tag not followed by a
push is `InvalidInscription`. -/
def parseFields : InstrSeq → List (List Nat × List Nat) →
    (Except InscriptionError (List (List Nat × List Nat))) × InstrSeq
  | [], _ => (.error .noInscription, [])
  | .error e :: rest, _ => (.error (.script e), rest)
  | .ok (.op c) :: rest, fields =>
    if c = opEndif then (.ok fields, rest)
    else (.error .invalidInscription, rest)
  | .ok (.pushBytes tag) :: rest, fields =>
    if tag = bodyTag then
      ((parseBody rest []).1.map fun body => insertField fields bodyTag body,
        (parseBody rest []).2)
    else if containsKey fields tag then (.error .invalidInscription, rest)
    else
      match rest with
      | [] => (.error .noInscription, [])
      | .error e :: rest2 => (.error (.script e), rest2)
      | .ok (.pushBytes v) :: rest2 => parseFields rest2 (insertField fields tag v)
      | .ok (.op _) :: rest2 => (.error .invalidInscription, rest2)

/-- `InscriptionParser::parse_one_inscription`: find the next envelope
header, read its fields, extract the body and content type, and reject
the envelope if any remaining tag's first byte is even. -/
def parseOneInscription (s : InstrSeq) : (Except InscriptionError Inscription) × InstrSeq :=
  match advanceIntoEnvelope s with
  | (.error e, s1) => (.error e, s1)
  | (.ok (), s1) =>
    match parseFields s1 [] with
    | (.error e, s2) => (.error e, s2)
    | (.ok fields, s2) =>
      let body := lookupField fields bodyTag
      let contentType := lookupField fields contentTypeTag
      let rest := removeField (removeField fields bodyTag) contentTypeTag
      if rest.any (fun kv => match kv.1 with
                             | b :: _ => b % 2 = 0
                             | [] => false) then
        (.error .unrecognizedEvenField, s2)
      else (.ok ⟨body, contentType⟩, s2)

/-- The `parse_inscriptions` loop with explicit fuel.  Each iteration that
does not stop consumes at least one instruction, so fuel equal to the
stream length plus one always suffices. -/
def parseLoop : Nat → InstrSeq → List (Except InscriptionError Inscription)
  | 0, _ => []
  | fuel + 1, s =>
    match parseOneInscription s with
    | (.error e, s') =>
      if e = .noInscription then [] else .error e :: parseLoop fuel s'
    | (.ok ins, s') => .ok ins :: parseLoop fuel s'

/-- `InscriptionParser::parse_inscriptions`: collect results of
`parse_one_inscription` until the `NoInscription` sentinel. -/
def parseInscriptions (s : InstrSeq) : List (Except InscriptionError Inscription) :=
  parseLoop (s.length + 1) s

/-- `Vec<Result<_>> → Result<Vec<_>>` as done by `.into_iter().collect()`:
stop at the first error. -/
def collectResults : List (Except InscriptionError Inscription) →
    Except InscriptionError (List Inscription)
  | [] => .ok []
  | .error e :: _ => .error e
  | .ok x :: rest => (collectResults rest).map (x :: ·)

/-- `InscriptionParser::parse`: witness-level entry point.  A witness is a
list of byte strings; the script element is chosen after the annex
check, decoded, and all envelopes in it are parsed. -/
def parseWitness (w : List (List Nat)) : Except InscriptionError (List Inscription) :=
  if w.length = 0 then .error .emptyWitness
  else if w.length = 1 then .error .keyPathSpend
  else
    let annex :=
      match w.getLast? with
      | some el => match el.head? with
                   | some b => b = annexByte
                   | none => false
      | none => false
    if w.length = 2 ∧ annex = true then .error .keyPathSpend
    else
      let script := (w[(if annex then w.length - 1 else w.length - 2)]?).getD []
      collectResults (parseInscriptions (decodeInstrs script))

/-- `OutPoint`: transaction id (abstracted to a number) and output index. -/
structure OutPoint where
  txid : Nat
  vout : Nat
deriving DecidableEq

/-- `OutPoint::null()`: all-zero txid and `u32::MAX` vout. -/
def outPointNull : OutPoint := ⟨0, 4294967295⟩

/-- A script pubkey: either a P2TR output carrying a taproot output key, or
raw bytes. -/
inductive Spk where
  | p2tr (outputKey : Nat)
  | raw (bytes : List Nat)
deriving DecidableEq

/-- `TxOut`. -/
structure TxOut where
  value : Nat
  scriptPubkey : Spk
deriving DecidableEq

/-- `TxIn`. -/
structure TxIn where
  previousOutput : OutPoint
  scriptSig : List Nat
  sequence : Nat
  witness : List (List Nat)
deriving DecidableEq

/-- `Transaction`. -/
structure Transaction where
  version : Nat
  lockTime : Nat
  input : List TxIn
  output : List TxOut
deriving DecidableEq

/-- The inner loop of `Inscription::from_transaction` with an explicit
running input index: parse each input's witness, skip inputs whose
witness fails to parse, and tag each recovered inscription with the
input index and its offset among that input's inscriptions. -/
def fromTransactionGo : Nat → List TxIn → List TransactionInscription
  | _, [] => []
  | i, txin :: rest =>
    (match parseWitness txin.witness with
     | .error _ => []
     | .ok inss => inss.enum.map fun p => ⟨p.2, i, p.1⟩) ++
    fromTransactionGo (i + 1) rest

/-- `Inscription::from_transaction`. -/
def fromTransaction (tx : Transaction) : List TransactionInscription :=
  fromTransactionGo 0 tx.input

/-- `SatPoint`: an outpoint plus a byte offset. -/
structure SatPoint where
  outpoint : OutPoint
  offset : Nat
deriving DecidableEq

/-- `Address`: a script pubkey together with a network id. -/
structure Address where
  spk : Spk
  network : Nat
deriving DecidableEq

/-- Stand-in for serializing an x-only public key into script bytes; the
planner never decodes these bytes, so a one-element list suffices. -/
def xOnlySerialize (key : Nat) : List Nat := [key]

/-- Stand-in for `XOnlyPublicKey::from_keypair`: the public key determined
by the secret key.  Modelled as the identity on the abstract key. -/
def xonlyOf (sk : Nat) : Nat := sk

/-- Stand-in for `TapLeafHash::from_script` with leaf version `TapScript`:
a deterministic function of the script bytes. -/
def tapLeafHash (script : List Nat) : Nat :=
  script.foldl (fun a b => a + b + 1) script.length

/-- Encode an optional merkle root as a number, to feed the pairing
function. -/
def encodeOptNat : Option Nat → Nat
  | none => 0
  | some n => n + 1

/-- Modelled from the library contract of rust-bitcoin's taproot key
arithmetic (`TaprootSpendInfo::output_key` and `TapTweak::tap_tweak`,
which are not part of this repository): the taproot output key is a
function of the internal key and the merkle root, injective in both, and
both call sites compute it with the same function. -/
def taprootOutputKey (internalKey : Nat) (merkleRoot : Option Nat) : Nat :=
  Nat.pair internalKey (encodeOptNat merkleRoot)

/-- `TweakedKeyPair`: a tweaked secret key (abstract) and the x-only public
key of the tweaked pair, which equals the taproot output key. -/
structure TweakedKeyPair where
  innerSk : Nat
  pubKey : Nat
deriving DecidableEq

/-- Modelled from the library contract of `UntweakedKeyPair::tap_tweak`
(not part of this repository): tweaking a keypair by a merkle root gives
a keypair whose x-only public key is the taproot output key of the
internal key under that root. -/
def tapTweak (sk : Nat) (merkleRoot : Option Nat) : TweakedKeyPair :=
  ⟨Nat.pair sk (encodeOptNat merkleRoot), taprootOutputKey (xonlyOf sk) merkleRoot⟩

/-- Stand-in for `ControlBlock::serialize` of the single-leaf control
block: a deterministic function of the internal key and the leaf script;
the planner only moves these bytes into witnesses. -/
def controlBlockSerialize (internalKey : Nat) (script : List Nat) : List Nat :=
  [internalKey, tapLeafHash script]

/-- `Prevouts` as passed to
`SighashCache::taproot_script_spend_signature_hash`. -/
inductive PrevoutsModel where
  | all (outs : List TxOut)
  | one (idx : Nat) (out : TxOut)
deriving DecidableEq

/-- `TapSighashType` (only the two values the planner uses). -/
inductive SigHashTy where
  | dflt
  | allPlusAnyoneCanPay
deriving DecidableEq

/-- `TapSighashType as u8`: the byte appended to the signature for a
non-default sighash type. -/
def sigHashTyByte : SigHashTy → Nat
  | .dflt => 0
  | .allPlusAnyoneCanPay => 129

/-- One invocation of `taproot_script_spend_signature_hash`, recorded by
the planner model so that signing is observable. -/
structure SigCall where
  index : Nat
  prevouts : PrevoutsModel
  leafHash : Nat
  hashTy : SigHashTy
deriving DecidableEq

/-- `MAX_STANDARD_TX_WEIGHT` from `bitcoin::policy`. -/
def maxStandardTxWeight : Nat := 400000

/-- The planner's error outcomes.  Each constructor corresponds to one
`bail!`/`anyhow!`/panic site in `create_inscription_transactions`. -/
inductive PlanError where
  | noCardinalUtxos
  | satAlreadyInscribed (satpoint : SatPoint)
  | utxoAlreadyInscribed (outpoint : OutPoint) (inscriptionId : Nat) (satpoint : SatPoint)
  | revealFeeUnderflow
  | revealOutputDust
  | txWeightExceedsStandard (weight : Nat)
  | assertAddressMismatch
  | builderError (msg : String)
  | panicErr (msg : String)
deriving DecidableEq

/-- The error message attached to each planner error, following the format
strings in the source (satpoints and outpoints are elided from the
rendered text where the claims do not depend on them). -/
def PlanError.message : PlanError → String
  | .noCardinalUtxos => "wallet contains no cardinal utxos"
  | .satAlreadyInscribed _ => "sat at satpoint already inscribed"
  | .utxoAlreadyInscribed _ _ _ =>
    "utxo outpoint already inscribed with inscription id on sat satpoint"
  | .revealFeeUnderflow =>
    "reveal transaction output value insufficient to pay transaction fee"
  | .revealOutputDust => "reveal transaction output would be dust"
  | .txWeightExceedsStandard w =>
    "reveal transaction weight greater than " ++ toString maxStandardTxWeight ++
      " (MAX_STANDARD_TX_WEIGHT): " ++ toString w
  | .assertAddressMismatch => "assertion failed: recovery address equals commit address"
  | .builderError msg => msg
  | .panicErr msg => msg

/-- The external collaborators of the planner: the commit transaction
builder, the fee-rate arithmetic, transaction weight and txid
measurement, the dust threshold of a script, the wallet RNG producing
fresh keypairs, and schnorr signing.  All are opaque parameters; the
claims hold for every choice of them (except where a claim needs the
documented builder contract, stated separately). -/
structure Collab where
  freshKey : Nat → Nat
  buildCommit : SatPoint → List (SatPoint × Nat) → List (OutPoint × Nat) →
    List Address → Option Address → (Address × Address) → Nat → List Nat →
    Option Nat → Bool → Except String Transaction
  weight : Transaction → Nat
  fee : Nat → Nat → Nat
  dustValue : Spk → Nat
  txid : Transaction → Nat
  sign : SigCall → Nat → List Nat

/-- The arguments of `Inscribe::create_inscription_transactions`, in source
order. -/
structure PlanArgs where
  satpoint : Option SatPoint
  inscriptionList : List Inscription
  priorInscriptions : List (SatPoint × Nat)
  network : Nat
  utxos : List (OutPoint × Nat)
  change : Address × Address
  destinations : List Address
  alignment : Option Address
  cursedDestination : Option Address
  cursedOutpoint : Option OutPoint
  cursedTxout : Option TxOut
  commitFeeRate : Nat
  revealFeeRate : Nat
  maxInputs : Option Nat
  noLimit : Bool
  postage : Nat
  cursed66 : Bool
  allowReinscribe : Bool
  ignoreUtxoInscriptions : Bool
  singleKey : Bool

/-- Satpoint selection: use the given satpoint, or the first utxo that is
not inscribed and not the cursed companion, at offset zero. -/
def selectSatpoint (A : PlanArgs) : Except PlanError SatPoint :=
  match A.satpoint with
  | some sp => .ok sp
  | none =>
    let inscribedUtxos := A.priorInscriptions.map fun p => p.1.outpoint
    match A.utxos.find? (fun p =>
        ¬ p.1 ∈ inscribedUtxos ∧
          (A.cursedOutpoint.isNone ∨ ¬ A.cursedOutpoint = some p.1)) with
    | some p => .ok ⟨p.1, 0⟩
    | none => .error .noCardinalUtxos

/-- The reinscription gate: walk the prior-inscriptions map; an entry equal
to the chosen satpoint needs `allow_reinscribe`, an entry sharing only
the outpoint needs `ignore_utxo_inscriptions`. -/
def reinscriptionGate (prior : List (SatPoint × Nat)) (satpoint : SatPoint)
    (allowReinscribe ignoreUtxoInscriptions : Bool) : Except PlanError Unit :=
  match prior with
  | [] => .ok ()
  | (sp', id) :: rest =>
    if sp' = satpoint then
      if !allowReinscribe then .error (.satAlreadyInscribed satpoint)
      else reinscriptionGate rest satpoint allowReinscribe ignoreUtxoInscriptions
    else if sp'.outpoint = satpoint.outpoint then
      if !ignoreUtxoInscriptions then
        .error (.utxoAlreadyInscribed satpoint.outpoint id sp')
      else reinscriptionGate rest satpoint allowReinscribe ignoreUtxoInscriptions
    else reinscriptionGate rest satpoint allowReinscribe ignoreUtxoInscriptions

/-- `destinations[i % destinations.len()]` (a panic when the destination
list is empty). -/
def destAt (destinations : List Address) (i : Nat) : Except PlanError Address :=
  match destinations[(i % destinations.length)]? with
  | some a => .ok a
  | none => .error (.panicErr "index out of bounds: destinations")

/-- The first output of a cursed reveal: the companion's value, paid to the
cursed destination if given, else back to the companion's script. -/
def cursedTxOutFor (A : PlanArgs) (companion : TxOut) : TxOut :=
  { value := companion.value
    scriptPubkey :=
      match A.cursedDestination with
      | some d => d.spk
      | none => companion.scriptPubkey }

/-- `Inscribe::build_reveal_transaction`: the unsigned reveal skeleton plus
the fee charged against the weight of a copy carrying a dummy witness (a
maximum-length schnorr signature, the script and the control block on the
script-path input; a bare dummy signature on any other input), plus one
weight unit for the sighash-type byte. -/
def buildRevealTransaction (C : Collab) (controlBlock : List Nat) (feeRate : Nat)
    (revealVoutPostage : Nat) (inputs : List OutPoint) (outputs : List TxOut)
    (script : List Nat) : Transaction × Nat :=
  let revealTx : Transaction :=
    { version := 1
      lockTime := 0
      input := inputs.map fun op =>
        { previousOutput := op, scriptSig := [], sequence := 4294967293, witness := [] }
      output := outputs }
  let dummyTx : Transaction :=
    { revealTx with
      input := revealTx.input.enum.map fun p =>
        { p.2 with
          witness :=
            if p.1 = revealVoutPostage then
              [List.replicate 64 0, script, controlBlock]
            else [List.replicate 64 0] } }
  (revealTx, C.fee feeRate (C.weight dummyTx + 1))

/-- The per-inscription data prepared by the planner's first loop. -/
structure RevealPrep where
  key : Nat
  revealScript : List Nat
  controlBlock : List Nat
  commitAddr : Address
  merkleRoot : Option Nat
deriving DecidableEq

/-- One iteration of the planner's first loop: generate (or reuse) the
keypair, build the reveal script `PUSH(pubkey) OP_CHECKSIG <envelope>`,
derive the single-leaf taproot commitment, the control block and the
commit address, and estimate the reveal fee on a skeleton with
placeholder inputs; the per-reveal funding requirement adds the
postage. -/
def prepStep (C : Collab) (A : PlanArgs) (sp : Nat) (i : Nat) (ins : Inscription) :
    Except PlanError (RevealPrep × Nat) :=
  let key := if A.singleKey then C.freshKey 0 else C.freshKey i
  let script := appendRevealScriptToBuilder ins A.cursed66
    (pushSlice (xOnlySerialize (xonlyOf key)) ++ [opChecksig])
  let mroot := some (tapLeafHash script)
  let addr : Address := ⟨.p2tr (taprootOutputKey (xonlyOf key) mroot), A.network⟩
  let cb := controlBlockSerialize (xonlyOf key) script
  match destAt A.destinations i with
  | .error e => .error e
  | .ok dest =>
    let baseInputs := [outPointNull]
    let baseOutputs : List TxOut := [{ value := 0, scriptPubkey := dest.spk }]
    match A.cursedOutpoint with
    | none =>
      let fee := (buildRevealTransaction C cb A.revealFeeRate sp baseInputs baseOutputs script).2
      .ok (⟨key, script, cb, addr, mroot⟩, fee + A.postage)
    | some co =>
      match A.cursedTxout with
      | none => .error (.panicErr "cursed companion txout missing")
      | some ct =>
        let fee := (buildRevealTransaction C cb A.revealFeeRate sp
          (co :: baseInputs) (cursedTxOutFor A ct :: baseOutputs) script).2
        .ok (⟨key, script, cb, addr, mroot⟩, fee + A.postage)

/-- The planner's first loop over the payload list. -/
def prepLoop (C : Collab) (A : PlanArgs) (sp : Nat) :
    Nat → List Inscription → Except PlanError (List RevealPrep × List Nat)
  | _, [] => .ok ([], [])
  | i, ins :: rest =>
    (prepStep C A sp i ins).bind fun p =>
      (prepLoop C A sp (i + 1) rest).bind fun ps =>
        .ok (p.1 :: ps.1, p.2 :: ps.2)

/-- The reveal skeleton and recomputed fee for inscription `i` of the
second loop: one input spending commit output `firstVout + i` paying the
destination its full value, with the cursed companion input and output
prepended when configured. -/
def revealBuildParts (C : Collab) (A : PlanArgs) (commit : Transaction)
    (firstVout sp i : Nat) (r : RevealPrep) :
    Except PlanError (TxOut × Transaction × Nat) :=
  let vout := i + firstVout
  match commit.output[vout]? with
  | none => .error (.panicErr "index out of bounds: commit outputs")
  | some output =>
    match destAt A.destinations i with
    | .error e => .error e
    | .ok dest =>
      let baseInputs : List OutPoint := [⟨C.txid commit, vout⟩]
      let baseOutputs : List TxOut := [{ value := output.value, scriptPubkey := dest.spk }]
      match A.cursedOutpoint with
      | none =>
        let p := buildRevealTransaction C r.controlBlock A.revealFeeRate sp
          baseInputs baseOutputs r.revealScript
        .ok (output, p.1, p.2)
      | some co =>
        match A.cursedTxout with
        | none => .error (.panicErr "cursed companion txout missing")
        | some ct =>
          let p := buildRevealTransaction C r.controlBlock A.revealFeeRate sp
            (co :: baseInputs) (cursedTxOutFor A ct :: baseOutputs) r.revealScript
          .ok (output, p.1, p.2)

/-- The second half of one reveal iteration, up to but not including the
standardness weight check: subtract the fee from the postage output
(checked), check the dust threshold, compute the sighash call, assemble
the script-path witness, tweak the recovery keypair, and assert that the
recovery address equals the commit address. -/
def revealFinalTx (C : Collab) (A : PlanArgs) (commit : Transaction)
    (firstVout sp i : Nat) (r : RevealPrep) :
    Except PlanError (Transaction × TweakedKeyPair × SigCall) :=
  match revealBuildParts C A commit firstVout sp i r with
  | .error e => .error e
  | .ok (output, tx0, fee) =>
    match tx0.output[sp]? with
    | none => .error (.panicErr "index out of bounds: reveal outputs")
    | some outSp =>
      if outSp.value < fee then .error .revealFeeUnderflow
      else
        let newValue := outSp.value - fee
        let tx1 := { tx0 with output := tx0.output.set sp { outSp with value := newValue } }
        if newValue < C.dustValue outSp.scriptPubkey then .error .revealOutputDust
        else
          let call : SigCall :=
            if A.cursedOutpoint.isSome then
              ⟨sp, .one 1 output, tapLeafHash r.revealScript, .allPlusAnyoneCanPay⟩
            else ⟨sp, .all [output], tapLeafHash r.revealScript, .dflt⟩
          let sigBytes := C.sign call r.key
          let sigElem :=
            if A.cursedOutpoint.isSome then sigBytes ++ [sigHashTyByte .allPlusAnyoneCanPay]
            else sigBytes
          match tx1.input[sp]? with
          | none => .error (.panicErr "index out of bounds: reveal inputs")
          | some txin =>
            let tx2 := { tx1 with
              input := tx1.input.set sp
                { txin with witness := [sigElem, r.revealScript, r.controlBlock] } }
            let tkp := tapTweak r.key r.merkleRoot
            if ¬ (⟨Spk.p2tr tkp.pubKey, A.network⟩ : Address) = r.commitAddr then
              .error .assertAddressMismatch
            else .ok (tx2, tkp, call)

/-- One full iteration of the planner's second loop: `revealFinalTx`
followed by the `MAX_STANDARD_TX_WEIGHT` check (skipped when `no_limit`
is set). -/
def revealStep (C : Collab) (A : PlanArgs) (commit : Transaction)
    (firstVout sp i : Nat) (r : RevealPrep) :
    Except PlanError (Transaction × TweakedKeyPair × SigCall) :=
  match revealFinalTx C A commit firstVout sp i r with
  | .error e => .error e
  | .ok (tx2, tkp, call) =>
    if ¬ A.noLimit = true ∧ maxStandardTxWeight < C.weight tx2 then
      .error (.txWeightExceedsStandard (C.weight tx2))
    else .ok (tx2, tkp, call)

/-- The planner's second loop over the prepared reveals. -/
def revealLoop (C : Collab) (A : PlanArgs) (commit : Transaction)
    (firstVout sp : Nat) :
    Nat → List RevealPrep →
    Except PlanError (List Transaction × List TweakedKeyPair × List SigCall)
  | _, [] => .ok ([], [], [])
  | i, r :: rest =>
    (revealStep C A commit firstVout sp i r).bind fun t =>
      (revealLoop C A commit firstVout sp (i + 1) rest).bind fun ts =>
        .ok (t.1 :: ts.1, t.2.1 :: ts.2.1, t.2.2 :: ts.2.2)

/-- The utxo view handed to the commit builder: the cursed companion (if
any) is removed. -/
def utxosMinusCursed (A : PlanArgs) : List (OutPoint × Nat) :=
  match A.cursedOutpoint with
  | none => A.utxos
  | some co => A.utxos.filter fun p => ¬ p.1 = co

/-- `Inscribe::create_inscription_transactions`: the full plan.  Returns
the chosen satpoint, the unsigned commit transaction, the signed reveal
transactions, the recovery keypairs, and (as observable instrumentation)
the sighash invocations performed. -/
def createInscriptionTransactions (C : Collab) (A : PlanArgs) :
    Except PlanError
      (SatPoint × Transaction × List Transaction × List TweakedKeyPair × List SigCall) :=
  match selectSatpoint A with
  | .error e => .error e
  | .ok satpoint =>
    match reinscriptionGate A.priorInscriptions satpoint
        A.allowReinscribe A.ignoreUtxoInscriptions with
    | .error e => .error e
    | .ok () =>
      let sp := if A.cursedOutpoint.isSome then 1 else 0
      match prepLoop C A sp 0 A.inscriptionList with
      | .error e => .error e
      | .ok (preps, revealFees) =>
        match C.buildCommit satpoint A.priorInscriptions (utxosMinusCursed A)
            (preps.map (·.commitAddr)) A.alignment A.change A.commitFeeRate
            revealFees A.maxInputs A.ignoreUtxoInscriptions with
        | .error msg => .error (.builderError msg)
        | .ok commit =>
          match preps.head? with
          | none => .error (.panicErr "no commit addresses")
          | some p0 =>
            match commit.output.findIdx? (fun o => o.scriptPubkey = p0.commitAddr.spk) with
            | none => .error (.panicErr "should find sat commit/inscription output")
            | some firstVout =>
              match revealLoop C A commit firstVout sp 0 preps with
              | .error e => .error e
              | .ok (txs, tkps, calls) => .ok (satpoint, commit, txs, tkps, calls)

/-- The decoded instruction stream of an envelope produced by
`append_reveal_script_to_builder` on an empty builder. -/
def envInstrs (ins : Inscription) (cursed : Bool) : InstrSeq :=
  [.ok (.pushBytes []), .ok (.op opIf), .ok (.pushBytes protocolId)] ++
  (match ins.contentType with
   | some ct => [.ok (.pushBytes contentTypeTag), .ok (.pushBytes ct)]
   | none => []) ++
  (if cursed then [.ok (.pushBytes cursedTag), .ok (.pushBytes cursedTagValue)] else []) ++
  (match ins.body with
   | some b => .ok (.pushBytes bodyTag) :: (chunksOf 520 b).map (fun c => .ok (.pushBytes c))
   | none => []) ++
  [.ok (.op opEndif)]

/-- An envelope that carries, besides the recognized fields, exactly one
extra tag `t` with one value push `v`, built with the same builder
primitives as `append_reveal_script_to_builder`. -/
def envUnknownTag (ct : Option (List Nat)) (t v : List Nat)
    (body : Option (List Nat)) : List Nat :=
  [0, opIf] ++ pushSlice protocolId ++
  (match ct with
   | some c => pushSlice contentTypeTag ++ pushSlice c
   | none => []) ++
  pushSlice t ++ pushSlice v ++
  (match body with
   | some b => pushSlice bodyTag ++ (chunksOf 520 b).flatMap pushSlice
   | none => []) ++
  [opEndif]

/-- The decoded instruction stream of `envUnknownTag`. -/
def envUnknownInstrs (ct : Option (List Nat)) (t v : List Nat)
    (body : Option (List Nat)) : InstrSeq :=
  [.ok (.pushBytes []), .ok (.op opIf), .ok (.pushBytes protocolId)] ++
  (match ct with
   | some c => [.ok (.pushBytes contentTypeTag), .ok (.pushBytes c)]
   | none => []) ++
  [.ok (.pushBytes t), .ok (.pushBytes v)] ++
  (match body with
   | some b => .ok (.pushBytes bodyTag) :: (chunksOf 520 b).map (fun c => .ok (.pushBytes c))
   | none => []) ++
  [.ok (.op opEndif)]

/-- The number of data pushes in a decoded instruction sequence. -/
def countPushes (s : InstrSeq) : Nat :=
  s.countP fun r => match r with
                    | .ok (.pushBytes _) => true
                    | _ => false

/-- Default values used with `List.getD` in specifications. -/
def defaultTxIn : TxIn := ⟨outPointNull, [], 0, []⟩

/-- Default inscription for `List.getD`. -/
def defaultInscription : Inscription := ⟨none, none⟩

/-- Default reveal preparation for `List.getD`. -/
def defaultPrep : RevealPrep := ⟨0, [], [], ⟨.raw [], 0⟩, none⟩

/-- Default transaction for `List.getD`. -/
def defaultTransaction : Transaction := ⟨0, 0, [], []⟩

/-- Default tweaked keypair for `List.getD`. -/
def defaultTkp : TweakedKeyPair := ⟨0, 0⟩

/-- Default sighash call for `List.getD`. -/
def defaultCall : SigCall := ⟨0, .all [], 0, .dflt⟩

/-- Default plan result, used to name the components of a successful plan
in closed statements. -/
def defaultPlan : SatPoint × Transaction × List Transaction × List TweakedKeyPair × List SigCall :=
  (⟨outPointNull, 0⟩, defaultTransaction, [], [], [])

/-- Modelled from the spec: the contract of the external transaction
builder (`src/transaction_builder.rs`, whose source is not available
here) as stated in the specification: the commit transaction pays the
ordered commit addresses contiguously, starting at the first output
whose script matches the first address. -/
def BuilderContract (C : Collab) : Prop :=
  ∀ sp pri utx addrs align chg rate fees maxIn ign tx,
    C.buildCommit sp pri utx addrs align chg rate fees maxIn ign = .ok tx →
    ∀ a0, addrs.head? = some a0 →
    ∀ v0, tx.output.findIdx? (fun o => o.scriptPubkey = a0.spk) = some v0 →
    ∀ i, i < addrs.length →
      (tx.output[v0 + i]?).map TxOut.scriptPubkey = (addrs[i]?).map Address.spk

/-- A concrete collaborator assignment used to exercise the planner on
closed inputs: the commit builder pays each requested address 20000
sats, weights are small, fees are proportional to weight, and signing is
a fixed function. -/
def sampleCollab : Collab :=
  { freshKey := fun i => i + 10
    buildCommit := fun _ _ _ addrs _ _ _ _ _ _ =>
      .ok { version := 2, lockTime := 0, input := [],
            output := addrs.map fun a => { value := 20000, scriptPubkey := a.spk } }
    weight := fun tx => 100 + tx.input.length
    fee := fun rate w => rate * w
    dustValue := fun _ => 330
    txid := fun _ => 77
    sign := fun _ k => [k, 1, 2] }

/-- Concrete planner arguments with an explicit satpoint and one payload. -/
def sampleArgs : PlanArgs :=
  { satpoint := some ⟨⟨5, 0⟩, 0⟩
    inscriptionList := [⟨some [111, 114, 100], some [116, 120, 116]⟩]
    priorInscriptions := []
    network := 0
    utxos := [(⟨5, 0⟩, 20000)]
    change := (⟨.raw [9], 0⟩, ⟨.raw [8], 0⟩)
    destinations := [⟨.raw [7], 0⟩]
    alignment := none
    cursedDestination := none
    cursedOutpoint := none
    cursedTxout := none
    commitFeeRate := 1
    revealFeeRate := 1
    maxInputs := none
    noLimit := false
    postage := 10000
    cursed66 := false
    allowReinscribe := false
    ignoreUtxoInscriptions := false
    singleKey := false }

/-- `sampleArgs` without a satpoint (selection must pick the lone utxo). -/
def sampleArgsNoSat : PlanArgs := { sampleArgs with satpoint := none }

/-- `sampleArgsNoSat` where the only utxo is already inscribed. -/
def sampleArgsAllInscribed : PlanArgs :=
  { sampleArgsNoSat with priorInscriptions := [(⟨⟨5, 0⟩, 3⟩, 1)] }

/-- A concrete commit transaction used for step-level witnesses. -/
def sampleCommit : Transaction :=
  { version := 2, lockTime := 0, input := [],
    output := [{ value := 20000, scriptPubkey := .raw [1] }] }

/-- A concrete reveal preparation used for step-level witnesses. -/
def samplePrep : RevealPrep :=
  { key := 10
    revealScript := [1, 2, 3]
    controlBlock := [4, 5]
    commitAddr := ⟨.p2tr (taprootOutputKey (xonlyOf 10) (some (tapLeafHash [1, 2, 3]))), 0⟩
    merkleRoot := some (tapLeafHash [1, 2, 3]) }

/-- A collaborator whose fee function exhausts any output value. -/
def sampleCollabHugeFee : Collab := { sampleCollab with fee := fun _ _ => 1000000000 }

/-- A collaborator whose fee function leaves a dust-level remainder. -/
def sampleCollabDustFee : Collab := { sampleCollab with fee := fun _ _ => 19900 }

/-- A collaborator whose weight measurement exceeds the standardness
limit while fees stay zero. -/
def sampleCollabHugeWeight : Collab :=
  { sampleCollab with weight := fun _ => 500000, fee := fun _ _ => 0 }

/-- The invariant the first planner loop establishes for each prepared
reveal: its commit address is the P2TR address of the taproot output key
of its own key under its own merkle root. -/
def prepWf (network : Nat) (r : RevealPrep) : Prop :=
  r.commitAddr = ⟨.p2tr (taprootOutputKey (xonlyOf r.key) r.merkleRoot), network⟩

/-- Default transaction output for `List.getD`. -/
def defaultTxOut : TxOut := ⟨0, .raw []⟩

/-- `sampleArgs` with the standardness weight limit bypassed. -/
def sampleArgsNoLimit : PlanArgs := { sampleArgs with noLimit := true }

/-- The plan computed on the closed sample inputs (used to name its
components in closed statements). -/
def samplePlan : SatPoint × Transaction × List Transaction × List TweakedKeyPair × List SigCall :=
  (createInscriptionTransactions sampleCollab sampleArgs).toOption.getD defaultPlan

/-- The plan computed on the closed sample inputs without a satpoint. -/
def samplePlanNoSat : SatPoint × Transaction × List Transaction × List TweakedKeyPair × List SigCall :=
  (createInscriptionTransactions sampleCollab sampleArgsNoSat).toOption.getD defaultPlan

/-- The first reveal transaction of `samplePlan`. -/
def sampleRevealTx : Transaction := samplePlan.2.2.1.getD 0 defaultTransaction

/-- The first recovery keypair of `samplePlan`. -/
def sampleTkp : TweakedKeyPair := samplePlan.2.2.2.1.getD 0 defaultTkp

/-- The first sighash call of `samplePlan`. -/
def sampleCall : SigCall := samplePlan.2.2.2.2.getD 0 defaultCall

/-- The reveal produced by `revealFinalTx` under the overweight
collaborator. -/
def sampleFinalWeight : Transaction × TweakedKeyPair × SigCall :=
  (revealFinalTx sampleCollabHugeWeight sampleArgs sampleCommit 0 0 0 samplePrep).toOption.getD
    (defaultTransaction, defaultTkp, defaultCall)

/-- The reveal produced by `revealFinalTx` under the overweight
collaborator with the limit bypassed. -/
def sampleFinalNoLimit : Transaction × TweakedKeyPair × SigCall :=
  (revealFinalTx sampleCollabHugeWeight sampleArgsNoLimit sampleCommit 0 0 0 samplePrep).toOption.getD
    (defaultTransaction, defaultTkp, defaultCall)

/-- The reveal skeleton computed under the fee-exhausting collaborator. -/
def samplePartsHugeFee : TxOut × Transaction × Nat :=
  (revealBuildParts sampleCollabHugeFee sampleArgs sampleCommit 0 0 0 samplePrep).toOption.getD
    (defaultTxOut, defaultTransaction, 0)

/-- The reveal skeleton computed under the dust-remainder collaborator. -/
def samplePartsDustFee : TxOut × Transaction × Nat :=
  (revealBuildParts sampleCollabDustFee sampleArgs sampleCommit 0 0 0 samplePrep).toOption.getD
    (defaultTxOut, defaultTransaction, 0)

/-- The postage output of `samplePartsHugeFee`. -/
def sampleOutSpHugeFee : TxOut := samplePartsHugeFee.2.1.output.getD 0 defaultTxOut

/-- The postage output of `samplePartsDustFee`. -/
def sampleOutSpDustFee : TxOut := samplePartsDustFee.2.1.output.getD 0 defaultTxOut

theorem decodeGo_nil (f : Nat) : decodeGo f [] = [] := by cases f <;> rfl

theorem decodeGo_congr :
    ∀ (n : Nat) (l : List Nat) (f g : Nat), l.length ≤ n → l.length ≤ f →
      l.length ≤ g → decodeGo f l = decodeGo g l := by
  intro n
  induction n with
  | zero =>
    intro l f g hn _ _
    have hl : l = [] := List.eq_nil_of_length_eq_zero (Nat.le_zero.mp hn)
    subst hl
    rw [decodeGo_nil, decodeGo_nil]
  | succ n ih =>
    intro l f g hn hf hg
    match l with
    | [] => rw [decodeGo_nil, decodeGo_nil]
    | b :: rest =>
      simp only [List.length_cons] at hn hf hg
      cases f with
      | zero => omega
      | succ f' =>
        cases g with
        | zero => omega
        | succ g' =>
          rcases rest with _ | ⟨n0, _ | ⟨n1, _ | ⟨n2, _ | ⟨n3, rest2⟩⟩⟩⟩ <;>
            · simp only [decodeGo]
              split_ifs <;>
                first
                  | rfl
                  | (refine congrArg (List.cons _) (ih _ _ _ ?_ ?_ ?_) <;>
                      (simp only [List.length_drop, List.length_cons,
                        List.length_nil] at *; omega))

theorem decodeGo_eq (f : Nat) (l : List Nat) (h : l.length ≤ f) :
    decodeGo f l = decodeInstrs l :=
  decodeGo_congr f l f l.length h h le_rfl

theorem decode_op (b : Nat) (rest : List Nat) (hb : 78 < b) :
    decodeInstrs (b :: rest) = .ok (.op b) :: decodeInstrs rest := by
  simp only [decodeInstrs, List.length_cons, decodeGo]
  rw [if_neg (by omega), if_neg (by omega), if_neg (by omega), if_neg (by omega)]

theorem decode_pushSlice (d rest : List Nat) (h : d.length < 4294967296) :
    decodeInstrs (pushSlice d ++ rest) = .ok (.pushBytes d) :: decodeInstrs rest := by
  by_cases h1 : d.length < 76
  · simp only [pushSlice, if_pos h1, List.cons_append]
    simp only [decodeInstrs, List.length_cons, decodeGo]
    rw [if_pos (show d.length ≤ 75 by omega),
      if_neg (show ¬ (d ++ rest).length < d.length by
        simp only [List.length_append]; omega),
      List.take_left, List.drop_left]
    exact congrArg (List.cons _)
      (decodeGo_eq _ _ (by simp only [List.length_append]; omega))
  · by_cases h2 : d.length < 256
    · simp only [pushSlice, if_neg h1, if_pos h2, List.cons_append]
      simp only [decodeInstrs, List.length_cons, decodeGo]
      norm_num
      exact decodeGo_congr (d.length + rest.length + 1) rest _ _
        (by omega) (by omega) le_rfl
    · by_cases h3 : d.length < 65536
      · simp only [pushSlice, if_neg h1, if_neg h2, if_pos h3, List.cons_append]
        simp only [decodeInstrs, List.length_cons, decodeGo]
        norm_num
        rw [show d.length % 256 + 256 * (d.length / 256) = d.length from by omega,
          if_neg (show ¬ d.length + rest.length < d.length by omega),
          List.take_left, List.drop_left]
        exact congrArg (List.cons _)
          (decodeGo_congr (d.length + rest.length + 2) rest _ _
            (by omega) (by omega) le_rfl)
      · simp only [pushSlice, if_neg h1, if_neg h2, if_neg h3, List.cons_append]
        simp only [decodeInstrs, List.length_cons, decodeGo]
        norm_num
        rw [show d.length % 256 + 256 * (d.length / 256 % 256 + 256 *
            (d.length / 65536 % 256 + 256 * (d.length / 16777216))) = d.length from by omega,
          if_neg (show ¬ d.length + rest.length < d.length by omega),
          List.take_left, List.drop_left]
        exact congrArg (List.cons _)
          (decodeGo_congr (d.length + rest.length + 4) rest _ _
            (by omega) (by omega) le_rfl)

theorem decode_chunks (cs : List (List Nat)) (rest : List Nat)
    (h : ∀ c ∈ cs, c.length < 4294967296) :
    decodeInstrs (cs.flatMap pushSlice ++ rest) =
      cs.map (fun c => .ok (.pushBytes c)) ++ decodeInstrs rest := by
  induction cs with
  | nil => simp
  | cons c cs ih =>
    simp only [List.flatMap_cons, List.map_cons, List.append_assoc, List.cons_append]
    rw [decode_pushSlice _ _ (h c (by simp)), ih (fun c hc => h c (by simp [hc]))]

theorem chunksOf_nil : chunksOf 520 ([] : List Nat) = [] := rfl

theorem chunksOf_cons (a : Nat) (l : List Nat) :
    chunksOf 520 (a :: l) =
      (a :: l).take 520 :: chunksOf 520 ((a :: l).drop 520) := by
  have hk : ((a :: l).length + 520 - 1) / 520 =
      (((a :: l).drop 520).length + 520 - 1) / 520 + 1 := by
    rw [List.length_drop, List.length_cons]
    omega
  simp only [chunksOf, hk, List.range_succ_eq_map, List.map_cons, List.map_map]
  refine congrArg₂ List.cons (by norm_num) ?_
  refine List.map_congr_left fun i _ => ?_
  simp only [Function.comp_apply]
  rw [List.drop_drop]
  congr 2
  simp only [Nat.succ_mul]
  omega

theorem chunksOf_flatten :
    ∀ (n : Nat) (l : List Nat), l.length ≤ n → (chunksOf 520 l).flatten = l := by
  intro n
  induction n with
  | zero =>
    intro l hn
    have hl : l = [] := List.eq_nil_of_length_eq_zero (Nat.le_zero.mp hn)
    subst hl; rfl
  | succ n ih =>
    intro l hn
    match l with
    | [] => rfl
    | a :: l' =>
      rw [chunksOf_cons, List.flatten_cons, ih _ (by simp at hn ⊢; omega)]
      exact List.take_append_drop _ _

theorem chunksOf_length (l : List Nat) :
    (chunksOf 520 l).length = (l.length + 519) / 520 := by
  simp [chunksOf]

theorem chunksOf_le (l c : List Nat) (h : c ∈ chunksOf 520 l) : c.length ≤ 520 := by
  simp only [chunksOf, List.mem_map, List.mem_range] at h
  obtain ⟨i, _, rfl⟩ := h
  simp [List.length_take]

theorem getElem?_eq_getD (l : List α) (i : Nat) (d : α) (h : i < l.length) :
    l[i]? = some (l.getD i d) := by
  rw [List.getD_eq_getElem?_getD, List.getElem?_eq_getElem h]
  rfl

theorem parseBody_length (s : InstrSeq) :
    ∀ acc, ((parseBody s acc).2).length ≤ s.length := by
  induction s with
  | nil => intro acc; simp [parseBody]
  | cons r rest ih =>
    intro acc
    match r with
    | .error e => simp [parseBody]
    | .ok (.op c) =>
      simp only [parseBody]
      split_ifs <;> simp
    | .ok (.pushBytes bs) =>
      simp only [parseBody, List.length_cons]
      exact le_trans (ih (acc ++ bs)) (Nat.le_succ _)

theorem parseFields_length :
    ∀ (n : Nat) (s : InstrSeq) (fields : List (List Nat × List Nat)),
      s.length ≤ n → ((parseFields s fields).2).length ≤ s.length := by
  intro n
  induction n with
  | zero =>
    intro s fields hn
    have hs : s = [] := List.eq_nil_of_length_eq_zero (Nat.le_zero.mp hn)
    subst hs
    simp [parseFields]
  | succ n ih =>
    intro s fields hn
    match s with
    | [] => simp [parseFields]
    | .error e :: rest => simp [parseFields]
    | .ok (.op c) :: rest =>
      simp only [parseFields]
      split_ifs <;> simp
    | .ok (.pushBytes tag) :: rest =>
      simp only [List.length_cons] at hn
      rw [parseFields.eq_def]
      simp only [List.length_cons]
      split_ifs with htag hdup
      · have := parseBody_length rest []
        exact le_trans this (Nat.le_succ _)
      · simp
      · match rest with
        | [] => simp
        | .error e :: rest2 => simp only []; simp only [List.length_cons]; omega
        | .ok (.pushBytes v) :: rest2 =>
          simp only [List.length_cons] at hn ⊢
          have := ih rest2 (insertField fields tag v) (by omega)
          omega
        | .ok (.op c) :: rest2 => simp only []; simp only [List.length_cons]; omega

theorem aieGo_length (s : InstrSeq) :
    ∀ k, ((aieGo s k).2).length ≤ s.length ∧
      ((aieGo s k).1 ≠ .error .noInscription → ((aieGo s k).2).length < s.length) := by
  induction s with
  | nil => intro k; simp [aieGo]
  | cons r rest ih =>
    intro k
    match r with
    | .error e => simp [aieGo]
    | .ok i =>
      simp only [aieGo]
      split_ifs with h1 h2
      · simp
      · constructor
        · exact le_trans (ih (k + 1)).1 (Nat.le_succ _)
        · intro _
          exact Nat.lt_succ_of_le (ih (k + 1)).1
      · constructor
        · exact le_trans (ih 0).1 (Nat.le_succ _)
        · intro _
          exact Nat.lt_succ_of_le (ih 0).1

theorem parseOne_decrease (s : InstrSeq)
    (h : (parseOneInscription s).1 ≠ .error .noInscription) :
    ((parseOneInscription s).2).length < s.length := by
  unfold parseOneInscription at h ⊢
  match ha : advanceIntoEnvelope s with
  | (.error e, s1) =>
    simp only [ha] at h ⊢
    have := (aieGo_length s 0).2
    unfold advanceIntoEnvelope at ha
    rw [ha] at this
    exact this (by simpa using h)
  | (.ok (), s1) =>
    have hs1 : s1.length < s.length := by
      have := (aieGo_length s 0).2
      unfold advanceIntoEnvelope at ha
      rw [ha] at this
      simpa using this (by simp)
    simp only [ha] at h ⊢
    match hf : parseFields s1 [] with
    | (.error e, s2) =>
      simp only [hf] at h ⊢
      have := parseFields_length s1.length s1 [] le_rfl
      rw [hf] at this
      exact lt_of_le_of_lt this hs1
    | (.ok fields, s2) =>
      simp only [hf] at h ⊢
      have := parseFields_length s1.length s1 [] le_rfl
      rw [hf] at this
      split_ifs <;> exact lt_of_le_of_lt this hs1

theorem parseLoop_congr :
    ∀ (n f g : Nat) (s : InstrSeq), s.length < f → s.length < g → s.length ≤ n →
      parseLoop f s = parseLoop g s := by
  intro n
  induction n with
  | zero =>
    intro f g s hf hg hn
    have hs : s = [] := List.eq_nil_of_length_eq_zero (Nat.le_zero.mp hn)
    subst hs
    match f, g, hf, hg with
    | f + 1, g + 1, _, _ =>
      simp [parseLoop, parseOneInscription, advanceIntoEnvelope, aieGo]
  | succ n ih =>
    intro f g s hf hg hn
    match f, g, hf, hg with
    | f + 1, g + 1, _, _ =>
      simp only [parseLoop]
      match hp : parseOneInscription s with
      | (.error e, s') =>
        simp only []
        split_ifs with he
        · rfl
        · have hlt : s'.length < s.length := by
            have := parseOne_decrease s (by rw [hp]; simpa using he)
            rwa [hp] at this
          exact congrArg (List.cons _) (ih f g s' (by omega) (by omega) (by omega))
      | (.ok ins, s') =>
        simp only []
        have hlt : s'.length < s.length := by
          have := parseOne_decrease s (by rw [hp]; simp)
          rwa [hp] at this
        exact congrArg (List.cons _) (ih f g s' (by omega) (by omega) (by omega))

theorem parseInscriptions_stop (s : InstrSeq)
    (h : (parseOneInscription s).1 = .error .noInscription) :
    parseInscriptions s = [] := by
  unfold parseInscriptions
  rw [parseLoop]
  match hp : parseOneInscription s with
  | (.error e, s') =>
    rw [hp] at h
    simp only [] at h
    simp only []
    rw [if_pos (by exact Except.error.inj h)]
  | (.ok ins, s') =>
    rw [hp] at h
    simp at h

theorem parseInscriptions_error (s s' : InstrSeq) (e : InscriptionError)
    (h : parseOneInscription s = (.error e, s')) (he : e ≠ .noInscription) :
    parseInscriptions s = .error e :: parseInscriptions s' := by
  have hlt : s'.length < s.length := by
    have := parseOne_decrease s (by rw [h]; simpa using he)
    rwa [h] at this
  unfold parseInscriptions
  rw [parseLoop, h]
  simp only []
  rw [if_neg he]
  exact congrArg (List.cons _)
    (parseLoop_congr s'.length _ _ s' (by omega) (by omega) le_rfl)

theorem parseInscriptions_ok (s s' : InstrSeq) (ins : Inscription)
    (h : parseOneInscription s = (.ok ins, s')) :
    parseInscriptions s = .ok ins :: parseInscriptions s' := by
  have hlt : s'.length < s.length := by
    have := parseOne_decrease s (by rw [h]; simp)
    rwa [h] at this
  unfold parseInscriptions
  rw [parseLoop, h]
  simp only []
  exact congrArg (List.cons _)
    (parseLoop_congr s'.length _ _ s' (by omega) (by omega) le_rfl)

theorem parseInscriptions_nil : parseInscriptions [] = [] := by
  apply parseInscriptions_stop
  rfl

theorem parseBody_chunks (cs : List (List Nat)) :
    ∀ (acc : List Nat) (rest : InstrSeq),
      parseBody (cs.map (fun c => .ok (.pushBytes c)) ++ .ok (.op opEndif) :: rest) acc =
        (.ok (acc ++ cs.flatten), rest) := by
  induction cs with
  | nil => intro acc rest; simp [parseBody]
  | cons c cs ih =>
    intro acc rest
    simp only [List.map_cons, List.cons_append, List.append_eq, parseBody]
    rw [ih (acc ++ c) rest]
    simp

theorem collectResults_first_error :
    ∀ (rs : List (Except InscriptionError Inscription)) (k : Nat) (e : InscriptionError),
      rs[k]? = some (.error e) → (∀ j, j < k → ∃ x, rs[j]? = some (.ok x)) →
      collectResults rs = .error e := by
  intro rs
  induction rs with
  | nil => intro k e hk _; simp at hk
  | cons r rest ih =>
    intro k e hk hj
    match k with
    | 0 =>
      simp only [List.getElem?_cons_zero, Option.some_inj] at hk
      subst hk
      rfl
    | k + 1 =>
      obtain ⟨x, hx⟩ := hj 0 (by omega)
      simp only [List.getElem?_cons_zero, Option.some_inj] at hx
      subst hx
      simp only [List.getElem?_cons_succ] at hk
      have := ih k e hk (fun j hjk => by
        have := hj (j + 1) (by omega)
        simpa using this)
      simp only [collectResults, this]
      rfl

theorem decode_zero (rest : List Nat) :
    decodeInstrs (0 :: rest) = .ok (.pushBytes []) :: decodeInstrs rest := by
  have := decode_pushSlice [] rest (by simp)
  simpa [pushSlice] using this

theorem aie_header (rest : InstrSeq) :
    advanceIntoEnvelope (.ok (.pushBytes []) :: .ok (.op opIf) ::
      .ok (.pushBytes protocolId) :: rest) = (.ok (), rest) := by
  simp [advanceIntoEnvelope, aieGo, headerInstr]

theorem decode_chunksOf (b : List Nat) (rest : List Nat) :
    decodeInstrs ((chunksOf 520 b).flatMap pushSlice ++ rest) =
      (chunksOf 520 b).map (fun c => .ok (.pushBytes c)) ++ decodeInstrs rest :=
  decode_chunks _ _ (fun c hc => by
    have := chunksOf_le b c hc
    omega)

theorem decode_appendReveal (ins : Inscription)
    (hct : ∀ ct, ins.contentType = some ct → ct.length < 4294967296) :
    decodeInstrs (appendRevealScriptToBuilder ins false []) = envInstrs ins false := by
  obtain ⟨body, ct⟩ := ins
  cases ct with
  | none =>
    cases body with
    | none =>
      simp only [appendRevealScriptToBuilder, envInstrs, Bool.false_eq_true, if_false,
        List.nil_append, List.append_assoc, List.cons_append, List.append_nil]
      rw [decode_zero, decode_op opIf _ (by decide),
        decode_pushSlice protocolId _ (by decide), decode_op opEndif _ (by decide)]
      rfl
    | some b =>
      simp only [appendRevealScriptToBuilder, envInstrs, Bool.false_eq_true, if_false,
        List.nil_append, List.append_assoc, List.cons_append, List.append_nil]
      rw [decode_zero, decode_op opIf _ (by decide),
        decode_pushSlice protocolId _ (by decide),
        decode_pushSlice bodyTag _ (by decide), decode_chunksOf,
        decode_op opEndif _ (by decide)]
      rfl
  | some c =>
    have hc : c.length < 4294967296 := hct c rfl
    cases body with
    | none =>
      simp only [appendRevealScriptToBuilder, envInstrs, Bool.false_eq_true, if_false,
        List.nil_append, List.append_assoc, List.cons_append, List.append_nil]
      rw [decode_zero, decode_op opIf _ (by decide),
        decode_pushSlice protocolId _ (by decide),
        decode_pushSlice contentTypeTag _ (by decide),
        decode_pushSlice c _ hc, decode_op opEndif _ (by decide)]
      rfl
    | some b =>
      simp only [appendRevealScriptToBuilder, envInstrs, Bool.false_eq_true, if_false,
        List.nil_append, List.append_assoc, List.cons_append, List.append_nil]
      rw [decode_zero, decode_op opIf _ (by decide),
        decode_pushSlice protocolId _ (by decide),
        decode_pushSlice contentTypeTag _ (by decide),
        decode_pushSlice c _ hc,
        decode_pushSlice bodyTag _ (by decide), decode_chunksOf,
        decode_op opEndif _ (by decide)]
      rfl

theorem parseOne_envInstrs (ins : Inscription) (rest : InstrSeq) :
    parseOneInscription (envInstrs ins false ++ rest) = (.ok ins, rest) := by
  obtain ⟨body, ct⟩ := ins
  cases ct with
  | none =>
    cases body with
    | none =>
      simp only [envInstrs, Bool.false_eq_true, if_false, List.append_assoc,
        List.cons_append, List.nil_append]
      unfold parseOneInscription
      rw [aie_header]
      simp only []
      rw [parseFields.eq_def]
      simp [lookupField, removeField, insertField]
    | some b =>
      simp only [envInstrs, Bool.false_eq_true, if_false, List.append_assoc,
        List.cons_append, List.nil_append]
      unfold parseOneInscription
      rw [aie_header]
      simp only []
      rw [parseFields.eq_def]
      simp only []
      rw [parseBody_chunks]
      simp [lookupField, removeField, insertField, Except.map,
        chunksOf_flatten b.length b le_rfl]
  | some c =>
    cases body with
    | none =>
      simp only [envInstrs, Bool.false_eq_true, if_false, List.append_assoc,
        List.cons_append, List.nil_append]
      unfold parseOneInscription
      rw [aie_header]
      simp only []
      rw [parseFields.eq_def]
      simp only []
      rw [if_neg (by simp [bodyTag]), if_neg (by simp [containsKey])]
      rw [parseFields.eq_def]
      simp [lookupField, removeField, insertField, containsKey]
    | some b =>
      simp only [envInstrs, Bool.false_eq_true, if_false, List.append_assoc,
        List.cons_append, List.nil_append]
      unfold parseOneInscription
      rw [aie_header]
      simp only []
      rw [parseFields.eq_def]
      simp only []
      rw [if_neg (by simp [bodyTag]), if_neg (by simp [containsKey])]
      rw [parseFields.eq_def]
      simp only []
      rw [parseBody_chunks]
      simp [lookupField, removeField, insertField, containsKey, Except.map,
        chunksOf_flatten b.length b le_rfl]

theorem parseWitness_pair (s : List Nat) :
    parseWitness [s, []] = collectResults (parseInscriptions (decodeInstrs s)) := by
  simp [parseWitness]

theorem enumFrom_map_getD {α β : Type} (d : α) (g : Nat → α → β) :
    ∀ (l : List α) (k : Nat),
      (List.enumFrom k l).map (fun p => g p.1 p.2) =
        (List.range l.length).map fun j => g (k + j) (l.getD j d) := by
  intro l
  induction l with
  | nil => intro k; simp
  | cons a l ih =>
    intro k
    simp only [List.enumFrom, List.map_cons, List.length_cons,
      List.range_succ_eq_map, List.map_map]
    refine congrArg₂ List.cons (by simp) ?_
    rw [ih (k + 1)]
    refine List.map_congr_left fun j _ => ?_
    simp only [Function.comp_apply, List.getD_cons_succ]
    congr 1
    omega

theorem fromTransactionGo_spec :
    ∀ (l : List TxIn) (i0 : Nat),
      fromTransactionGo i0 l =
        ((List.range l.length).map fun i =>
          match parseWitness ((l.getD i defaultTxIn).witness) with
          | .error _ => []
          | .ok inss =>
            (List.range inss.length).map fun j =>
              TransactionInscription.mk (inss.getD j defaultInscription) (i0 + i) j).flatten := by
  intro l
  induction l with
  | nil => intro i0; simp [fromTransactionGo]
  | cons txin l ih =>
    intro i0
    simp only [fromTransactionGo, List.length_cons, List.range_succ_eq_map,
      List.map_cons, List.map_map, List.flatten_cons]
    refine congrArg₂ (· ++ ·) ?_ ?_
    · simp only [List.getD_cons_zero]
      match parseWitness txin.witness with
      | .error e => rfl
      | .ok inss =>
        simp only []
        have := enumFrom_map_getD defaultInscription
          (fun j ins => TransactionInscription.mk ins i0 j) inss 0
        simp only [List.enum]
        rw [this]
        refine List.map_congr_left fun j _ => ?_
        simp
    · rw [ih (i0 + 1)]
      refine congrArg List.flatten (List.map_congr_left fun i _ => ?_)
      simp only [Function.comp_apply, List.getD_cons_succ]
      match parseWitness ((l.getD i defaultTxIn).witness) with
      | .error e => rfl
      | .ok inss =>
        simp only []
        refine List.map_congr_left fun j _ => ?_
        congr 1
        omega

/-- C1: for every `Inscription` (any combination of optional content type
and optional body; the content type shorter than `2^32` bytes, beyond
which the Rust script builder panics), appending its envelope to an
empty script builder with the cursed flag off, wrapping the resulting
script as a two-element witness whose second element is empty, and
parsing that witness yields `Ok` of a one-element list containing an
inscription structurally equal to the original. -/
theorem claim1_roundTrip (ins : Inscription)
    (hct : ∀ ct, ins.contentType = some ct → ct.length < 4294967296) :
    parseWitness [appendRevealScriptToBuilder ins false [], []] = .ok [ins] := by
  rw [parseWitness_pair, decode_appendReveal ins hct]
  rw [parseInscriptions_ok (envInstrs ins false) [] ins
    (by simpa using parseOne_envInstrs ins [])]
  rw [parseInscriptions_nil]
  rfl

/-- Witness for C1 at a concrete inscription. -/
theorem claim1_roundTrip_witness :
    parseWitness [appendRevealScriptToBuilder
        ⟨some [111, 114, 100], some [116, 101, 120, 116]⟩ false [], []] =
      .ok [⟨some [111, 114, 100], some [116, 101, 120, 116]⟩] :=
  claim1_roundTrip _ (by
    intro ct h
    injection h with h2
    subst h2
    decide)

/-- C2: `Inscription::from_transaction` never fails, and its result is, in
input order, one `TransactionInscription` per recovered envelope:
`tx_in_index` is the zero-based index of the containing input,
`tx_in_offset` the zero-based position of the envelope among those
recovered from that input's witness, and an input whose witness fails to
parse contributes nothing while the remaining inputs are still
examined. -/
theorem claim2_extract (tx : Transaction) :
    fromTransaction tx =
      ((List.range tx.input.length).map fun i =>
        match parseWitness ((tx.input.getD i defaultTxIn).witness) with
        | .error _ => []
        | .ok inss =>
          (List.range inss.length).map fun j =>
            TransactionInscription.mk (inss.getD j defaultInscription) i j).flatten := by
  unfold fromTransaction
  rw [fromTransactionGo_spec tx.input 0]
  refine congrArg List.flatten (List.map_congr_left fun i _ => ?_)
  simp only [Nat.zero_add]

/-- C3 as stated is false: with the constant overhead `k` fixed, the
formula `max(1, ceil(L/520)) + k` forces the `L = 0` and `L = 1`
envelopes to contain the same number of data pushes, but the code emits
zero body pushes at `L = 0` and one at `L = 1` (5 versus 6 pushes with a
`"foo"` content type). -/
theorem claim3_chunkCount_cex :
    ¬ ∃ k : Nat,
      countPushes (decodeInstrs (appendRevealScriptToBuilder
          ⟨some [], some [102, 111, 111]⟩ false [])) =
        max 1 ((([] : List Nat).length + 519) / 520) + k ∧
      countPushes (decodeInstrs (appendRevealScriptToBuilder
          ⟨some [0], some [102, 111, 111]⟩ false [])) =
        max 1 ((([0] : List Nat).length + 519) / 520) + k := by
  rintro ⟨k, h1, h2⟩
  rw [show countPushes (decodeInstrs (appendRevealScriptToBuilder
      ⟨some [], some [102, 111, 111]⟩ false [])) = 5 from by decide] at h1
  rw [show countPushes (decodeInstrs (appendRevealScriptToBuilder
      ⟨some [0], some [102, 111, 111]⟩ false [])) = 6 from by decide] at h2
  simp at h1 h2
  omega

/-- C3 (amended): with the body present, the encoded envelope (cursed flag
off) contains exactly `ceil(L/520) + k` data pushes, `k` being the
constant overhead (the `OP_FALSE` empty push, the protocol push, the
body tag push, plus two pushes when a content type is present); equally
`ceil(L/520) + k + 2` instructions counting the two opcodes.  The body
itself is emitted as `ceil(L/520)` pushes of at most 520 bytes each
whose concatenation is the body, with zero body pushes when `L = 0`. -/
theorem countP_pushBytes_map (l : List (List Nat)) :
    (l.countP ((fun r => match r with
                         | Except.ok (Instr.pushBytes _) => true
                         | _ => false) ∘
      fun c => (Except.ok (Instr.pushBytes c) : Except ScriptError Instr))) = l.length := by
  induction l with
  | nil => rfl
  | cons c l ih => simp [List.countP_cons, ih]

theorem claim3_chunkCount (ct : Option (List Nat)) (body : List Nat)
    (hct : ∀ c, ct = some c → c.length < 4294967296) :
    (decodeInstrs (appendRevealScriptToBuilder ⟨some body, ct⟩ false [])).length =
      (body.length + 519) / 520 + (5 + if ct.isSome then 2 else 0) ∧
    countPushes (decodeInstrs (appendRevealScriptToBuilder ⟨some body, ct⟩ false [])) =
      (body.length + 519) / 520 + (3 + if ct.isSome then 2 else 0) ∧
    (chunksOf 520 body).length = (body.length + 519) / 520 ∧
    (∀ c ∈ chunksOf 520 body, c.length ≤ 520) ∧
    (chunksOf 520 body).flatten = body ∧
    (body = [] → chunksOf 520 body = []) := by
  rw [decode_appendReveal ⟨some body, ct⟩ (by intro c h; exact hct c (by simpa using h))]
  refine ⟨?_, ?_, chunksOf_length body, fun c hc => chunksOf_le body c hc,
    chunksOf_flatten body.length body le_rfl, ?_⟩
  · cases ct <;> simp [envInstrs, chunksOf_length]
  · cases ct <;>
      simp [envInstrs, countPushes, List.countP_append, List.countP_cons,
        countP_pushBytes_map, chunksOf_length]
  · intro h
    subst h
    rfl

/-- Witness for C3 (amended) at a concrete content type and body. -/
theorem claim3_chunkCount_witness :
    (decodeInstrs (appendRevealScriptToBuilder
        ⟨some [7, 8], some [102, 111, 111]⟩ false [])).length =
      (([7, 8] : List Nat).length + 519) / 520 + (5 + 2) ∧
    countPushes (decodeInstrs (appendRevealScriptToBuilder
        ⟨some [7, 8], some [102, 111, 111]⟩ false [])) =
      (([7, 8] : List Nat).length + 519) / 520 + (3 + 2) := by
  have h := claim3_chunkCount (some [102, 111, 111]) [7, 8] (by
    intro c hc
    injection hc with h2
    subst h2
    decide)
  exact ⟨by simpa using h.1, by simpa using h.2.1⟩

theorem parseFields_endif (fields : List (List Nat × List Nat)) (rest : InstrSeq) :
    parseFields (.ok (.op opEndif) :: rest) fields = (.ok fields, rest) := by
  rw [parseFields.eq_def]
  simp

theorem parseFields_tagValue (tag v : List Nat) (fields : List (List Nat × List Nat))
    (rest : InstrSeq) (hne0 : ¬ tag = bodyTag)
    (hdup : containsKey fields tag = false) :
    parseFields (.ok (.pushBytes tag) :: .ok (.pushBytes v) :: rest) fields =
      parseFields rest (insertField fields tag v) := by
  rw [parseFields.eq_def]
  simp only []
  rw [if_neg hne0, hdup]
  simp

theorem parseFields_bodyChunks (fields : List (List Nat × List Nat)) (b : List Nat)
    (rest : InstrSeq) :
    parseFields (.ok (.pushBytes bodyTag) ::
        ((chunksOf 520 b).map (fun c => .ok (.pushBytes c)) ++
          .ok (.op opEndif) :: rest)) fields =
      (.ok (insertField fields bodyTag b), rest) := by
  rw [parseFields.eq_def]
  simp only []
  rw [if_pos trivial, parseBody_chunks]
  simp [Except.map, chunksOf_flatten b.length b le_rfl]

theorem decode_envUnknownTag (ct : Option (List Nat)) (t v : List Nat)
    (body : Option (List Nat))
    (hct : ∀ c, ct = some c → c.length < 4294967296)
    (ht : t.length < 4294967296) (hv : v.length < 4294967296) :
    decodeInstrs (envUnknownTag ct t v body) = envUnknownInstrs ct t v body := by
  cases ct with
  | none =>
    cases body with
    | none =>
      simp only [envUnknownTag, envUnknownInstrs, List.nil_append,
        List.append_assoc, List.cons_append, List.append_nil]
      rw [decode_zero, decode_op opIf _ (by decide),
        decode_pushSlice protocolId _ (by decide),
        decode_pushSlice t _ ht, decode_pushSlice v _ hv,
        decode_op opEndif _ (by decide)]
      rfl
    | some b =>
      simp only [envUnknownTag, envUnknownInstrs, List.nil_append,
        List.append_assoc, List.cons_append, List.append_nil]
      rw [decode_zero, decode_op opIf _ (by decide),
        decode_pushSlice protocolId _ (by decide),
        decode_pushSlice t _ ht, decode_pushSlice v _ hv,
        decode_pushSlice bodyTag _ (by decide), decode_chunksOf,
        decode_op opEndif _ (by decide)]
      rfl
  | some c =>
    have hc : c.length < 4294967296 := hct c rfl
    cases body with
    | none =>
      simp only [envUnknownTag, envUnknownInstrs, List.nil_append,
        List.append_assoc, List.cons_append, List.append_nil]
      rw [decode_zero, decode_op opIf _ (by decide),
        decode_pushSlice protocolId _ (by decide),
        decode_pushSlice contentTypeTag _ (by decide),
        decode_pushSlice c _ hc,
        decode_pushSlice t _ ht, decode_pushSlice v _ hv,
        decode_op opEndif _ (by decide)]
      rfl
    | some b =>
      simp only [envUnknownTag, envUnknownInstrs, List.nil_append,
        List.append_assoc, List.cons_append, List.append_nil]
      rw [decode_zero, decode_op opIf _ (by decide),
        decode_pushSlice protocolId _ (by decide),
        decode_pushSlice contentTypeTag _ (by decide),
        decode_pushSlice c _ hc,
        decode_pushSlice t _ ht, decode_pushSlice v _ hv,
        decode_pushSlice bodyTag _ (by decide), decode_chunksOf,
        decode_op opEndif _ (by decide)]
      rfl

theorem parseOne_envUnknown (ct body : Option (List Nat)) (t0 : Nat) (ts v : List Nat)
    (hne : ¬ (t0 :: ts) = contentTypeTag) (rest : InstrSeq) :
    parseOneInscription (envUnknownInstrs ct (t0 :: ts) v body ++ rest) =
      ((if t0 % 2 = 0 then .error .unrecognizedEvenField else .ok ⟨body, ct⟩), rest) := by
  have h1 : ¬ ([1] : List Nat) = t0 :: ts := fun h => hne h.symm
  cases ct with
  | none =>
    cases body with
    | none =>
      simp only [envUnknownInstrs, List.append_assoc, List.cons_append, List.nil_append]
      unfold parseOneInscription
      rw [aie_header]
      simp only []
      rw [parseFields_tagValue _ _ _ _ (by simp) (by simp [containsKey]),
        parseFields_endif]
      by_cases ht0 : t0 % 2 = 0 <;>
        simp [ht0, lookupField, removeField, insertField, hne]
    | some b =>
      simp only [envUnknownInstrs, List.append_assoc, List.cons_append, List.nil_append]
      unfold parseOneInscription
      rw [aie_header]
      simp only []
      rw [parseFields_tagValue _ _ _ _ (by simp) (by simp [containsKey]),
        parseFields_bodyChunks]
      by_cases ht0 : t0 % 2 = 0 <;>
        simp [ht0, lookupField, removeField, insertField, hne]
  | some c =>
    cases body with
    | none =>
      simp only [envUnknownInstrs, List.append_assoc, List.cons_append, List.nil_append]
      unfold parseOneInscription
      rw [aie_header]
      simp only []
      rw [parseFields_tagValue contentTypeTag c _ _ (by simp) (by simp [containsKey]),
        parseFields_tagValue _ _ _ _ (by simp)
          (by simp [containsKey, insertField, h1]),
        parseFields_endif]
      by_cases ht0 : t0 % 2 = 0 <;>
        simp [ht0, lookupField, removeField, insertField, hne, h1]
    | some b =>
      simp only [envUnknownInstrs, List.append_assoc, List.cons_append, List.nil_append]
      unfold parseOneInscription
      rw [aie_header]
      simp only []
      rw [parseFields_tagValue contentTypeTag c _ _ (by simp) (by simp [containsKey]),
        parseFields_tagValue _ _ _ _ (by simp)
          (by simp [containsKey, insertField, h1]),
        parseFields_bodyChunks]
      by_cases ht0 : t0 % 2 = 0 <;>
        simp [ht0, lookupField, removeField, insertField, hne, h1]

/-- C4: for a built envelope carrying, besides the recognized fields,
exactly one unknown non-body tag (a nonempty byte string different from
the content-type tag) with one value push: if the tag's first byte is
odd the envelope parses successfully and the unknown tag is ignored,
while the otherwise identical envelope whose unknown tag's first byte is
even fails to parse with `UnrecognizedEvenField`.  The size hypotheses
keep every push below the builder's `2^32`-byte panic bound. -/
theorem claim4_unknownTagParity (ct body : Option (List Nat)) (t0 : Nat)
    (ts v : List Nat)
    (hct : ∀ c, ct = some c → c.length < 4294967296)
    (ht : (t0 :: ts).length < 4294967296) (hv : v.length < 4294967296)
    (hne : ¬ (t0 :: ts) = contentTypeTag) :
    (t0 % 2 = 1 →
      parseWitness [envUnknownTag ct (t0 :: ts) v body, []] = .ok [⟨body, ct⟩]) ∧
    (t0 % 2 = 0 →
      parseWitness [envUnknownTag ct (t0 :: ts) v body, []] =
        .error .unrecognizedEvenField) := by
  have hdec := decode_envUnknownTag ct (t0 :: ts) v body hct ht hv
  constructor
  · intro hodd
    rw [parseWitness_pair, hdec]
    rw [parseInscriptions_ok (envUnknownInstrs ct (t0 :: ts) v body) [] ⟨body, ct⟩
      (by
        have := parseOne_envUnknown ct body t0 ts v hne []
        rw [if_neg (by omega)] at this
        simpa using this)]
    rw [parseInscriptions_nil]
    rfl
  · intro heven
    rw [parseWitness_pair, hdec]
    rw [parseInscriptions_error (envUnknownInstrs ct (t0 :: ts) v body) []
      .unrecognizedEvenField
      (by
        have := parseOne_envUnknown ct body t0 ts v hne []
        rw [if_pos heven] at this
        simpa using this)
      (by simp)]
    rfl

theorem getElem?_set_self (l : List α) (i : Nat) (a : α) (h : i < l.length) :
    (l.set i a)[i]? = some a := by
  rw [List.getElem?_eq_getElem (by simpa using h)]
  simp [List.getElem_set]

theorem destAt_error (dests : List Address) (i : Nat) (e : PlanError)
    (h : destAt dests i = .error e) : ∃ msg, e = .panicErr msg := by
  unfold destAt at h
  match hd : dests[(i % dests.length)]? with
  | some a => rw [hd] at h; simp at h
  | none =>
    rw [hd] at h
    simp only [Except.error.injEq] at h
    exact ⟨_, h.symm⟩

theorem revealBuildParts_error (C : Collab) (A : PlanArgs) (commit : Transaction)
    (fv sp i : Nat) (r : RevealPrep) (e : PlanError)
    (h : revealBuildParts C A commit fv sp i r = .error e) :
    ∃ msg, e = .panicErr msg := by
  unfold revealBuildParts at h
  simp only [] at h
  match h1 : commit.output[(i + fv)]? with
  | none =>
    rw [h1] at h
    simp only [Except.error.injEq] at h
    exact ⟨_, h.symm⟩
  | some output =>
    rw [h1] at h
    simp only [] at h
    match h2 : destAt A.destinations i with
    | .error e2 =>
      rw [h2] at h
      simp only [Except.error.injEq] at h
      subst h
      exact destAt_error _ _ _ h2
    | .ok dest =>
      rw [h2] at h
      simp only [] at h
      match h3 : A.cursedOutpoint with
      | none => rw [h3] at h; simp at h
      | some co =>
        rw [h3] at h
        simp only [] at h
        match h4 : A.cursedTxout with
        | none =>
          rw [h4] at h
          simp only [Except.error.injEq] at h
          exact ⟨_, h.symm⟩
        | some ct => rw [h4] at h; simp at h

theorem revealBuildParts_ok_inv (C : Collab) (A : PlanArgs) (commit : Transaction)
    (fv sp i : Nat) (r : RevealPrep) (output : TxOut) (tx0 : Transaction) (fee : Nat)
    (hsp : sp = if A.cursedOutpoint.isSome then 1 else 0)
    (h : revealBuildParts C A commit fv sp i r = .ok (output, tx0, fee)) :
    commit.output[(i + fv)]? = some output ∧
    tx0.input.length = (if A.cursedOutpoint.isSome then 2 else 1) ∧
    (tx0.input[sp]?).map TxIn.previousOutput = some ⟨C.txid commit, i + fv⟩ ∧
    ∃ spk, tx0.output[sp]? = some ⟨output.value, spk⟩ := by
  unfold revealBuildParts at h
  simp only [] at h
  match h1 : commit.output[(i + fv)]? with
  | none => rw [h1] at h; simp at h
  | some output0 =>
    rw [h1] at h
    simp only [] at h
    match h2 : destAt A.destinations i with
    | .error e2 => rw [h2] at h; simp at h
    | .ok dest =>
      rw [h2] at h
      simp only [] at h
      match h3 : A.cursedOutpoint with
      | none =>
        rw [h3] at h
        simp only [Except.ok.injEq, Prod.mk.injEq] at h
        obtain ⟨rfl, rfl, rfl⟩ := h
        rw [h3] at hsp
        simp only [Option.isSome_none, Bool.false_eq_true, if_false] at hsp
        subst hsp
        refine ⟨rfl, ?_, ?_, ⟨dest.spk, ?_⟩⟩ <;>
          simp [buildRevealTransaction, h3]
      | some co =>
        rw [h3] at h
        simp only [] at h
        match h4 : A.cursedTxout with
        | none => rw [h4] at h; simp at h
        | some ct =>
          rw [h4] at h
          simp only [Except.ok.injEq, Prod.mk.injEq] at h
          obtain ⟨rfl, rfl, rfl⟩ := h
          rw [h3] at hsp
          simp only [Option.isSome_some, if_true] at hsp
          subst hsp
          refine ⟨rfl, ?_, ?_, ⟨dest.spk, ?_⟩⟩ <;>
            simp [buildRevealTransaction, h3]

theorem revealFinalTx_ok_inv (C : Collab) (A : PlanArgs) (commit : Transaction)
    (fv sp i : Nat) (r : RevealPrep) (tx : Transaction) (tkp : TweakedKeyPair)
    (call : SigCall)
    (hsp : sp = if A.cursedOutpoint.isSome then 1 else 0)
    (h : revealFinalTx C A commit fv sp i r = .ok (tx, tkp, call)) :
    ∃ output txin out',
      commit.output[(i + fv)]? = some output ∧
      tx.input.length = (if A.cursedOutpoint.isSome then 2 else 1) ∧
      tx.input[sp]? = some txin ∧
      txin.previousOutput = ⟨C.txid commit, i + fv⟩ ∧
      tx.output[sp]? = some out' ∧
      (∃ fee, fee ≤ output.value ∧ out'.value = output.value - fee) ∧
      C.dustValue out'.scriptPubkey ≤ out'.value ∧
      tkp = tapTweak r.key r.merkleRoot ∧
      (⟨Spk.p2tr tkp.pubKey, A.network⟩ : Address) = r.commitAddr ∧
      call = (if A.cursedOutpoint.isSome then
          ⟨sp, .one 1 output, tapLeafHash r.revealScript, .allPlusAnyoneCanPay⟩
        else ⟨sp, .all [output], tapLeafHash r.revealScript, .dflt⟩) := by
  unfold revealFinalTx at h
  match hb : revealBuildParts C A commit fv sp i r with
  | .error e => rw [hb] at h; exact absurd h (by simp)
  | .ok (output, tx0, fee) =>
    rw [hb] at h
    simp only [] at h
    obtain ⟨h1, h2, h3, spk, h4⟩ :=
      revealBuildParts_ok_inv C A commit fv sp i r output tx0 fee hsp hb
    rw [h4] at h
    simp only [] at h
    by_cases hlt : output.value < fee
    · rw [if_pos hlt] at h; exact absurd h (by simp)
    rw [if_neg hlt] at h
    by_cases hdu : output.value - fee < C.dustValue spk
    · rw [if_pos hdu] at h; exact absurd h (by simp)
    rw [if_neg hdu] at h
    match h5 : tx0.input[sp]? with
    | none => rw [h5] at h; exact absurd h (by simp)
    | some txin0 =>
      rw [h5] at h
      simp only [] at h
      by_cases haddr :
          (⟨Spk.p2tr (tapTweak r.key r.merkleRoot).pubKey, A.network⟩ : Address) = r.commitAddr
      · rw [if_neg (not_not.mpr haddr)] at h
        simp only [Except.ok.injEq, Prod.mk.injEq] at h
        obtain ⟨rfl, rfl, rfl⟩ := h
        have hsplen : sp < tx0.output.length :=
          (List.getElem?_eq_some_iff.mp h4).1
        have hsplen2 : sp < tx0.input.length :=
          (List.getElem?_eq_some_iff.mp h5).1
        have hprev : txin0.previousOutput = OutPoint.mk (C.txid commit) (i + fv) := by
          rw [h5] at h3
          simpa using h3
        exact ⟨output, _, _, h1,
          by simpa [List.length_set] using h2,
          getElem?_set_self _ _ _ hsplen2,
          hprev,
          getElem?_set_self _ _ _ hsplen,
          ⟨fee, Nat.le_of_not_lt hlt, rfl⟩,
          Nat.le_of_not_lt hdu, rfl, haddr, rfl⟩
      · rw [if_pos haddr] at h
        exact absurd h (by simp)

theorem revealStep_ok_inv (C : Collab) (A : PlanArgs) (commit : Transaction)
    (fv sp i : Nat) (r : RevealPrep) (tx : Transaction) (tkp : TweakedKeyPair)
    (call : SigCall)
    (h : revealStep C A commit fv sp i r = .ok (tx, tkp, call)) :
    revealFinalTx C A commit fv sp i r = .ok (tx, tkp, call) ∧
    (A.noLimit = true ∨ C.weight tx ≤ maxStandardTxWeight) := by
  unfold revealStep at h
  match hf : revealFinalTx C A commit fv sp i r with
  | .error e => rw [hf] at h; exact absurd h (by simp)
  | .ok (tx2, tkp2, call2) =>
    rw [hf] at h
    simp only [] at h
    by_cases hw : ¬ A.noLimit = true ∧ maxStandardTxWeight < C.weight tx2
    · rw [if_pos hw] at h; exact absurd h (by simp)
    · rw [if_neg hw] at h
      simp only [Except.ok.injEq, Prod.mk.injEq] at h
      obtain ⟨rfl, rfl, rfl⟩ := h
      refine ⟨rfl, ?_⟩
      rcases not_and_or.mp hw with h1 | h2
      · exact Or.inl (not_not.mp h1)
      · exact Or.inr (Nat.le_of_not_lt h2)

theorem revealLoop_ok_spec (C : Collab) (A : PlanArgs) (commit : Transaction)
    (fv sp : Nat) :
    ∀ (rs : List RevealPrep) (i0 : Nat) (txs : List Transaction)
      (tkps : List TweakedKeyPair) (calls : List SigCall),
      revealLoop C A commit fv sp i0 rs = .ok (txs, tkps, calls) →
      txs.length = rs.length ∧
      ∀ j, j < rs.length →
        ∃ r tx tkp call, rs[j]? = some r ∧ txs[j]? = some tx ∧
          tkps[j]? = some tkp ∧ calls[j]? = some call ∧
          revealStep C A commit fv sp (i0 + j) r = .ok (tx, tkp, call) := by
  intro rs
  induction rs with
  | nil =>
    intro i0 txs tkps calls h
    rw [revealLoop] at h
    simp only [Except.ok.injEq, Prod.mk.injEq] at h
    obtain ⟨rfl, rfl, rfl⟩ := h
    exact ⟨rfl, fun j hj => absurd hj (by simp)⟩
  | cons r rest ih =>
    intro i0 txs tkps calls h
    rw [revealLoop] at h
    match hs : revealStep C A commit fv sp i0 r with
    | .error e => rw [hs] at h; exact absurd h (by simp [Except.bind])
    | .ok t =>
      rw [hs] at h
      simp only [Except.bind] at h
      match hl : revealLoop C A commit fv sp (i0 + 1) rest with
      | .error e => rw [hl] at h; exact absurd h (by simp)
      | .ok ts =>
        rw [hl] at h
        simp only [Except.ok.injEq, Prod.mk.injEq] at h
        obtain ⟨rfl, rfl, rfl⟩ := h
        obtain ⟨ihlen, ihspec⟩ := ih (i0 + 1) ts.1 ts.2.1 ts.2.2 hl
        refine ⟨by simpa using ihlen, ?_⟩
        intro j hj
        match j with
        | 0 =>
          exact ⟨r, t.1, t.2.1, t.2.2, by simp, by simp, by simp, by simp,
            by simpa using hs⟩
        | j + 1 =>
          obtain ⟨r', tx', tkp', call', h1, h2, h3, h4, h5⟩ :=
            ihspec j (by simpa using hj)
          refine ⟨r', tx', tkp', call', by simpa using h1, by simpa using h2,
            by simpa using h3, by simpa using h4, ?_⟩
          have : i0 + 1 + j = i0 + (j + 1) := by omega
          rw [this] at h5
          exact h5

theorem prepStep_ok_wf (C : Collab) (A : PlanArgs) (sp i : Nat)
    (ins : Inscription) (p : RevealPrep × Nat)
    (h : prepStep C A sp i ins = .ok p) : prepWf A.network p.1 := by
  unfold prepStep at h
  simp only [] at h
  match h2 : destAt A.destinations i with
  | .error e => rw [h2] at h; exact absurd h (by simp)
  | .ok dest =>
    rw [h2] at h
    simp only [] at h
    match h3 : A.cursedOutpoint with
    | none =>
      rw [h3] at h
      simp only [Except.ok.injEq] at h
      subst h
      rfl
    | some co =>
      rw [h3] at h
      simp only [] at h
      match h4 : A.cursedTxout with
      | none => rw [h4] at h; exact absurd h (by simp)
      | some ct =>
        rw [h4] at h
        simp only [Except.ok.injEq] at h
        subst h
        rfl

theorem prepLoop_ok_wf (C : Collab) (A : PlanArgs) (sp : Nat) :
    ∀ (l : List Inscription) (i0 : Nat) (preps : List RevealPrep) (fees : List Nat),
      prepLoop C A sp i0 l = .ok (preps, fees) →
      ∀ r ∈ preps, prepWf A.network r := by
  intro l
  induction l with
  | nil =>
    intro i0 preps fees h
    rw [prepLoop] at h
    simp only [Except.ok.injEq, Prod.mk.injEq] at h
    obtain ⟨rfl, rfl⟩ := h
    intro r hr
    exact absurd hr (by simp)
  | cons ins rest ih =>
    intro i0 preps fees h
    rw [prepLoop] at h
    match hs : prepStep C A sp i0 ins with
    | .error e => rw [hs] at h; exact absurd h (by simp [Except.bind])
    | .ok p =>
      rw [hs] at h
      simp only [Except.bind] at h
      match hl : prepLoop C A sp (i0 + 1) rest with
      | .error e => rw [hl] at h; exact absurd h (by simp)
      | .ok ps =>
        rw [hl] at h
        simp only [Except.ok.injEq, Prod.mk.injEq] at h
        obtain ⟨rfl, rfl⟩ := h
        intro r hr
        rcases List.mem_cons.mp hr with h1 | h1
        · subst h1
          exact prepStep_ok_wf C A sp i0 ins p hs
        · exact ih (i0 + 1) ps.1 ps.2 hl r h1

theorem create_ok_inv (C : Collab) (A : PlanArgs) (spt : SatPoint)
    (commit : Transaction) (txs : List Transaction) (tkps : List TweakedKeyPair)
    (calls : List SigCall)
    (h : createInscriptionTransactions C A = .ok (spt, commit, txs, tkps, calls)) :
    selectSatpoint A = .ok spt ∧
    ∃ preps fees fv,
      prepLoop C A (if A.cursedOutpoint.isSome then 1 else 0) 0 A.inscriptionList
        = .ok (preps, fees) ∧
      C.buildCommit spt A.priorInscriptions (utxosMinusCursed A)
        (preps.map (fun r => r.commitAddr)) A.alignment A.change A.commitFeeRate
        fees A.maxInputs A.ignoreUtxoInscriptions = .ok commit ∧
      (∃ p0, preps.head? = some p0 ∧
        commit.output.findIdx? (fun o => o.scriptPubkey = p0.commitAddr.spk) = some fv) ∧
      revealLoop C A commit fv (if A.cursedOutpoint.isSome then 1 else 0) 0 preps
        = .ok (txs, tkps, calls) := by
  unfold createInscriptionTransactions at h
  match hsel : selectSatpoint A with
  | .error e => rw [hsel] at h; exact absurd h (by simp)
  | .ok satpoint =>
    rw [hsel] at h
    simp only [] at h
    match hg : reinscriptionGate A.priorInscriptions satpoint
        A.allowReinscribe A.ignoreUtxoInscriptions with
    | .error e => rw [hg] at h; exact absurd h (by simp)
    | .ok _ =>
      rw [hg] at h
      simp only [] at h
      match hp : prepLoop C A (if A.cursedOutpoint.isSome then 1 else 0)
          0 A.inscriptionList with
      | .error e => rw [hp] at h; exact absurd h (by simp)
      | .ok pf =>
        rw [hp] at h
        simp only [] at h
        match hb : C.buildCommit satpoint A.priorInscriptions (utxosMinusCursed A)
            (pf.1.map (fun r => r.commitAddr)) A.alignment A.change A.commitFeeRate
            pf.2 A.maxInputs A.ignoreUtxoInscriptions with
        | .error msg => rw [hb] at h; exact absurd h (by simp)
        | .ok commit0 =>
          rw [hb] at h
          simp only [] at h
          match hh : pf.1.head? with
          | none => rw [hh] at h; exact absurd h (by simp)
          | some p0 =>
            rw [hh] at h
            simp only [] at h
            match hfi : commit0.output.findIdx?
                (fun o => o.scriptPubkey = p0.commitAddr.spk) with
            | none => rw [hfi] at h; exact absurd h (by simp)
            | some fv =>
              rw [hfi] at h
              simp only [] at h
              match hrl : revealLoop C A commit0 fv
                  (if A.cursedOutpoint.isSome then 1 else 0) 0 pf.1 with
              | .error e => rw [hrl] at h; exact absurd h (by simp)
              | .ok res =>
                rw [hrl] at h
                simp only [Except.ok.injEq, Prod.mk.injEq] at h
                obtain ⟨rfl, rfl, rfl, rfl, rfl⟩ := h
                exact ⟨rfl, pf.1, pf.2, fv, rfl, hb, ⟨p0, hh, hfi⟩, hrl⟩

theorem selectSatpoint_error (A : PlanArgs) (e : PlanError)
    (h : selectSatpoint A = .error e) : e = .noCardinalUtxos := by
  unfold selectSatpoint at h
  match h1 : A.satpoint with
  | some sp => rw [h1] at h; exact absurd h (by simp)
  | none =>
    rw [h1] at h
    simp only [] at h
    match h2 : A.utxos.find? (fun p =>
        ¬ p.1 ∈ (A.priorInscriptions.map fun q => q.1.outpoint) ∧
          (A.cursedOutpoint.isNone ∨ ¬ A.cursedOutpoint = some p.1)) with
    | some p => rw [h2] at h; exact absurd h (by simp)
    | none =>
      rw [h2] at h
      simp only [Except.error.injEq] at h
      exact h.symm

theorem reinscriptionGate_no_mismatch :
    ∀ (prior : List (SatPoint × Nat)) (satpoint : SatPoint)
      (ar ig : Bool) (e : PlanError),
      reinscriptionGate prior satpoint ar ig = .error e →
      ¬ e = .assertAddressMismatch := by
  intro prior
  induction prior with
  | nil =>
    intro satpoint ar ig e h
    exact absurd h (by simp [reinscriptionGate])
  | cons hd tl ih =>
    intro satpoint ar ig e h
    unfold reinscriptionGate at h
    split_ifs at h with h1 h2 h3 h4
    · simp only [Except.error.injEq] at h
      subst h
      simp
    · exact ih satpoint ar ig e h
    · simp only [Except.error.injEq] at h
      subst h
      simp
    · exact ih satpoint ar ig e h
    · exact ih satpoint ar ig e h

theorem prepStep_error (C : Collab) (A : PlanArgs) (sp i : Nat)
    (ins : Inscription) (e : PlanError)
    (h : prepStep C A sp i ins = .error e) : ∃ msg, e = .panicErr msg := by
  unfold prepStep at h
  simp only [] at h
  match h2 : destAt A.destinations i with
  | .error e2 =>
    rw [h2] at h
    simp only [Except.error.injEq] at h
    subst h
    exact destAt_error _ _ _ h2
  | .ok dest =>
    rw [h2] at h
    simp only [] at h
    match h3 : A.cursedOutpoint with
    | none => rw [h3] at h; exact absurd h (by simp)
    | some co =>
      rw [h3] at h
      simp only [] at h
      match h4 : A.cursedTxout with
      | none =>
        rw [h4] at h
        simp only [Except.error.injEq] at h
        exact ⟨_, h.symm⟩
      | some ct => rw [h4] at h; exact absurd h (by simp)

theorem prepLoop_error (C : Collab) (A : PlanArgs) (sp : Nat) :
    ∀ (l : List Inscription) (i0 : Nat) (e : PlanError),
      prepLoop C A sp i0 l = .error e → ∃ msg, e = .panicErr msg := by
  intro l
  induction l with
  | nil =>
    intro i0 e h
    rw [prepLoop] at h
    exact absurd h (by simp)
  | cons ins rest ih =>
    intro i0 e h
    rw [prepLoop] at h
    match hs : prepStep C A sp i0 ins with
    | .error e2 =>
      rw [hs] at h
      simp only [Except.bind, Except.error.injEq] at h
      subst h
      exact prepStep_error C A sp i0 ins e2 hs
    | .ok p =>
      rw [hs] at h
      simp only [Except.bind] at h
      match hl : prepLoop C A sp (i0 + 1) rest with
      | .error e2 =>
        rw [hl] at h
        simp only [Except.error.injEq] at h
        subst h
        exact ih (i0 + 1) e2 hl
      | .ok ps => rw [hl] at h; exact absurd h (by simp)

theorem revealFinalTx_no_mismatch (C : Collab) (A : PlanArgs)
    (commit : Transaction) (fv sp i : Nat) (r : RevealPrep) (e : PlanError)
    (hwf : prepWf A.network r)
    (h : revealFinalTx C A commit fv sp i r = .error e) :
    ¬ e = .assertAddressMismatch := by
  unfold revealFinalTx at h
  match hb : revealBuildParts C A commit fv sp i r with
  | .error e0 =>
    rw [hb] at h
    simp only [Except.error.injEq] at h
    subst h
    obtain ⟨msg, rfl⟩ := revealBuildParts_error C A commit fv sp i r e0 hb
    simp
  | .ok (output, tx0, fee) =>
    rw [hb] at h
    simp only [] at h
    match h4 : tx0.output[sp]? with
    | none =>
      rw [h4] at h
      simp only [Except.error.injEq] at h
      subst h
      simp
    | some outSp =>
      rw [h4] at h
      simp only [] at h
      by_cases hlt : outSp.value < fee
      · rw [if_pos hlt] at h
        simp only [Except.error.injEq] at h
        subst h
        simp
      rw [if_neg hlt] at h
      by_cases hdu : outSp.value - fee < C.dustValue outSp.scriptPubkey
      · rw [if_pos hdu] at h
        simp only [Except.error.injEq] at h
        subst h
        simp
      rw [if_neg hdu] at h
      match h5 : tx0.input[sp]? with
      | none =>
        rw [h5] at h
        simp only [Except.error.injEq] at h
        subst h
        simp
      | some txin0 =>
        rw [h5] at h
        simp only [] at h
        have haddr :
            (⟨Spk.p2tr (tapTweak r.key r.merkleRoot).pubKey, A.network⟩ : Address)
              = r.commitAddr := by
          rw [hwf]
          rfl
        rw [if_neg (not_not.mpr haddr)] at h
        exact absurd h (by simp)

theorem revealStep_no_mismatch (C : Collab) (A : PlanArgs)
    (commit : Transaction) (fv sp i : Nat) (r : RevealPrep) (e : PlanError)
    (hwf : prepWf A.network r)
    (h : revealStep C A commit fv sp i r = .error e) :
    ¬ e = .assertAddressMismatch := by
  unfold revealStep at h
  match hf : revealFinalTx C A commit fv sp i r with
  | .error e0 =>
    rw [hf] at h
    simp only [Except.error.injEq] at h
    subst h
    exact revealFinalTx_no_mismatch C A commit fv sp i r e0 hwf hf
  | .ok (tx2, tkp2, call2) =>
    rw [hf] at h
    simp only [] at h
    by_cases hw : ¬ A.noLimit = true ∧ maxStandardTxWeight < C.weight tx2
    · rw [if_pos hw] at h
      simp only [Except.error.injEq] at h
      subst h
      simp
    · rw [if_neg hw] at h
      exact absurd h (by simp)

theorem revealLoop_no_mismatch (C : Collab) (A : PlanArgs)
    (commit : Transaction) (fv sp : Nat) :
    ∀ (rs : List RevealPrep) (i0 : Nat) (e : PlanError),
      (∀ r ∈ rs, prepWf A.network r) →
      revealLoop C A commit fv sp i0 rs = .error e →
      ¬ e = .assertAddressMismatch := by
  intro rs
  induction rs with
  | nil =>
    intro i0 e _ h
    rw [revealLoop] at h
    exact absurd h (by simp)
  | cons r rest ih =>
    intro i0 e hwf h
    rw [revealLoop] at h
    match hs : revealStep C A commit fv sp i0 r with
    | .error e2 =>
      rw [hs] at h
      simp only [Except.bind, Except.error.injEq] at h
      subst h
      exact revealStep_no_mismatch C A commit fv sp i0 r e2
        (hwf r (by simp)) hs
    | .ok t =>
      rw [hs] at h
      simp only [Except.bind] at h
      match hl : revealLoop C A commit fv sp (i0 + 1) rest with
      | .error e2 =>
        rw [hl] at h
        simp only [Except.error.injEq] at h
        subst h
        exact ih (i0 + 1) e2 (fun r' hr' => hwf r' (by simp [hr'])) hl
      | .ok ts => rw [hl] at h; exact absurd h (by simp)

theorem create_no_mismatch (C : Collab) (A : PlanArgs) (e : PlanError)
    (h : createInscriptionTransactions C A = .error e) :
    ¬ e = .assertAddressMismatch := by
  unfold createInscriptionTransactions at h
  match hsel : selectSatpoint A with
  | .error e0 =>
    rw [hsel] at h
    simp only [Except.error.injEq] at h
    subst h
    rw [selectSatpoint_error A e0 hsel]
    simp
  | .ok satpoint =>
    rw [hsel] at h
    simp only [] at h
    match hg : reinscriptionGate A.priorInscriptions satpoint
        A.allowReinscribe A.ignoreUtxoInscriptions with
    | .error e0 =>
      rw [hg] at h
      simp only [Except.error.injEq] at h
      subst h
      exact reinscriptionGate_no_mismatch A.priorInscriptions satpoint
        A.allowReinscribe A.ignoreUtxoInscriptions e0 hg
    | .ok _ =>
      rw [hg] at h
      simp only [] at h
      match hp : prepLoop C A (if A.cursedOutpoint.isSome then 1 else 0)
          0 A.inscriptionList with
      | .error e0 =>
        rw [hp] at h
        simp only [Except.error.injEq] at h
        subst h
        obtain ⟨msg, rfl⟩ := prepLoop_error C A _ _ _ e0 hp
        simp
      | .ok pf =>
        rw [hp] at h
        simp only [] at h
        match hb : C.buildCommit satpoint A.priorInscriptions (utxosMinusCursed A)
            (pf.1.map (fun r => r.commitAddr)) A.alignment A.change A.commitFeeRate
            pf.2 A.maxInputs A.ignoreUtxoInscriptions with
        | .error msg =>
          rw [hb] at h
          simp only [Except.error.injEq] at h
          subst h
          simp
        | .ok commit0 =>
          rw [hb] at h
          simp only [] at h
          match hh : pf.1.head? with
          | none =>
            rw [hh] at h
            simp only [Except.error.injEq] at h
            subst h
            simp
          | some p0 =>
            rw [hh] at h
            simp only [] at h
            match hfi : commit0.output.findIdx?
                (fun o => o.scriptPubkey = p0.commitAddr.spk) with
            | none =>
              rw [hfi] at h
              simp only [Except.error.injEq] at h
              subst h
              simp
            | some fv =>
              rw [hfi] at h
              simp only [] at h
              match hrl : revealLoop C A commit0 fv
                  (if A.cursedOutpoint.isSome then 1 else 0) 0 pf.1 with
              | .error e0 =>
                rw [hrl] at h
                simp only [Except.error.injEq] at h
                subst h
                exact revealLoop_no_mismatch C A commit0 fv _ pf.1 0 e0
                  (prepLoop_ok_wf C A _ A.inscriptionList 0 pf.1 pf.2
                    (by simpa using hp)) hrl
              | .ok res => rw [hrl] at h; exact absurd h (by simp)

theorem head?_map_eq (f : α → β) (l : List α) (a : α) (h : l.head? = some a) :
    (l.map f).head? = some (f a) := by
  cases l with
  | nil => simp at h
  | cons x xs => simp_all

theorem sampleCollab_builderContract : BuilderContract sampleCollab := by
  intro sp pri utx addrs align chg rate fees maxIn ign tx h a0 ha0 v0 hv0 i hi
  simp only [sampleCollab, Except.ok.injEq] at h
  subst h
  match addrs, ha0 with
  | a0 :: rest, rfl =>
    simp only [List.map_cons, List.findIdx?_cons] at hv0
    rw [if_pos (by simp)] at hv0
    simp only [Option.some.injEq] at hv0
    subst hv0
    cases i with
    | zero => simp
    | succ n =>
      simp only [Nat.zero_add, List.getElem?_cons_succ, List.getElem?_map,
        Option.map_map]
      cases rest[n]? <;> rfl

theorem claim4_unknownTagParity_witness :
    parseWitness [envUnknownTag (some [97]) [3] [0] (some [98]), []] =
      .ok [⟨some [98], some [97]⟩] ∧
    parseWitness [envUnknownTag (some [97]) [2] [0] (some [98]), []] =
      .error .unrecognizedEvenField := by
  constructor
  · exact (claim4_unknownTagParity (some [97]) (some [98]) 3 [] [0]
      (by intro c hc; injection hc with h2; subst h2; decide)
      (by decide) (by decide) (by decide)).1 (by decide)
  · exact (claim4_unknownTagParity (some [97]) (some [98]) 2 [] [0]
      (by intro c hc; injection hc with h2; subst h2; decide)
      (by decide) (by decide) (by decide)).2 (by decide)

/-- C10: if parsing any envelope in the chosen script element returns an
error, `InscriptionParser::parse` returns that error for the whole
witness; inscriptions already parsed from earlier envelopes of the same
script are discarded rather than returned. -/
theorem claim10_errorDiscards (scriptBytes : List Nat) (k : Nat) (e : InscriptionError)
    (he : (parseInscriptions (decodeInstrs scriptBytes))[k]? = some (.error e))
    (hok : ∀ j, j < k →
      ∃ x, (parseInscriptions (decodeInstrs scriptBytes))[j]? = some (.ok x)) :
    parseWitness [scriptBytes, []] = .error e := by
  rw [parseWitness_pair]
  exact collectResults_first_error _ k e he hok

/-- Witness for C10: a script with one well-formed envelope followed by an
envelope with an unknown even tag parses to that error, discarding the
first inscription. -/
theorem claim10_errorDiscards_witness :
    parseWitness [appendRevealScriptToBuilder ⟨some [111], none⟩ false [] ++
        ([0, opIf] ++ pushSlice protocolId ++ pushSlice [2] ++ pushSlice [0] ++
          [opEndif]), []] =
      .error .unrecognizedEvenField :=
  claim10_errorDiscards _ 1 _ (by decide) (by
    intro j hj
    have hj0 : j = 0 := by omega
    subst hj0
    exact ⟨⟨some [111], none⟩, by decide⟩)

/-- C5: in every successful plan the script-path input of each reveal
transaction sits at position 0 (position 1 when a cursed companion is
configured, which prepends the companion input), spends the commit output
assigned to that inscription, and its sighash is invoked at that index
with `Prevouts::All([commit_output])` and the default hash type
(respectively `Prevouts::One(1, commit_output)` and `AllPlusAnyoneCanPay`
when cursed). -/
theorem claim5_sighash (C : Collab) (A : PlanArgs) (spt : SatPoint)
    (commit : Transaction) (txs : List Transaction) (tkps : List TweakedKeyPair)
    (calls : List SigCall)
    (h : createInscriptionTransactions C A = .ok (spt, commit, txs, tkps, calls)) :
    ∃ fv, ∀ (j : Nat) (tx : Transaction) (call : SigCall),
      txs[j]? = some tx → calls[j]? = some call →
      ∃ (output : TxOut) (txin : TxIn),
        commit.output[(j + fv)]? = some output ∧
        tx.input.length = (if A.cursedOutpoint.isSome then 2 else 1) ∧
        tx.input[(if A.cursedOutpoint.isSome then 1 else 0)]? = some txin ∧
        txin.previousOutput = ⟨C.txid commit, j + fv⟩ ∧
        call.index = (if A.cursedOutpoint.isSome then 1 else 0) ∧
        call.prevouts =
          (if A.cursedOutpoint.isSome then .one 1 output else .all [output]) ∧
        call.hashTy =
          (if A.cursedOutpoint.isSome then .allPlusAnyoneCanPay else .dflt) := by
  obtain ⟨hsel, preps, fees, fv, hp, hb, ⟨p0, hh, hfi⟩, hrl⟩ :=
    create_ok_inv C A spt commit txs tkps calls h
  refine ⟨fv, ?_⟩
  intro j tx call htx hcall
  obtain ⟨hlen, hspec⟩ := revealLoop_ok_spec C A commit fv _ preps 0 txs tkps calls hrl
  have hjlen : j < preps.length := by
    have := (List.getElem?_eq_some_iff.mp htx).1
    omega
  obtain ⟨r, tx', tkp', call', h1, h2, h3, h4, h5⟩ := hspec j hjlen
  obtain rfl : tx' = tx := by
    rw [htx] at h2
    exact (Option.some.inj h2).symm
  obtain rfl : call' = call := by
    rw [hcall] at h4
    exact (Option.some.inj h4).symm
  rw [Nat.zero_add] at h5
  obtain ⟨hok, _⟩ := revealStep_ok_inv C A commit fv _ j r tx' tkp' call' h5
  obtain ⟨output, txin, out', g1, g2, g3, g4, g5, g6, g7, g8, g9, g10⟩ :=
    revealFinalTx_ok_inv C A commit fv _ j r tx' tkp' call' rfl hok
  refine ⟨output, txin, g1, g2, g3, g4, ?_, ?_, ?_⟩ <;> rw [g10] <;>
    cases hc : A.cursedOutpoint.isSome <;> simp [hc]

/-- Witness for C5 at the closed sample plan. -/
theorem claim5_sighash_witness :
    ∃ fv, ∀ (j : Nat) (tx : Transaction) (call : SigCall),
      samplePlan.2.2.1[j]? = some tx → samplePlan.2.2.2.2[j]? = some call →
      ∃ (output : TxOut) (txin : TxIn),
        samplePlan.2.1.output[(j + fv)]? = some output ∧
        tx.input.length = (if sampleArgs.cursedOutpoint.isSome then 2 else 1) ∧
        tx.input[(if sampleArgs.cursedOutpoint.isSome then 1 else 0)]? = some txin ∧
        txin.previousOutput = ⟨sampleCollab.txid samplePlan.2.1, j + fv⟩ ∧
        call.index = (if sampleArgs.cursedOutpoint.isSome then 1 else 0) ∧
        call.prevouts =
          (if sampleArgs.cursedOutpoint.isSome then .one 1 output else .all [output]) ∧
        call.hashTy =
          (if sampleArgs.cursedOutpoint.isSome then .allPlusAnyoneCanPay else .dflt) :=
  claim5_sighash sampleCollab sampleArgs samplePlan.1 samplePlan.2.1
    samplePlan.2.2.1 samplePlan.2.2.2.1 samplePlan.2.2.2.2 (by rfl)

/-- C6: (a) in every successful plan and for every reveal, the script-path
input spends a commit output whose script is the P2TR script of the x-only
public key of the recovery keypair (granted the documented contract of the
external commit builder); (b) the planner's internal assertion of this
equality never fires: no run of the planner returns the address-mismatch
error. -/
theorem claim6_addressConsistency :
    (∀ (C : Collab) (A : PlanArgs) (spt : SatPoint) (commit : Transaction)
       (txs : List Transaction) (tkps : List TweakedKeyPair) (calls : List SigCall),
      BuilderContract C →
      createInscriptionTransactions C A = .ok (spt, commit, txs, tkps, calls) →
      ∀ (j : Nat) (tx : Transaction) (tkp : TweakedKeyPair),
        txs[j]? = some tx → tkps[j]? = some tkp →
        ∃ (txin : TxIn) (output : TxOut),
          tx.input[(if A.cursedOutpoint.isSome then 1 else 0)]? = some txin ∧
          txin.previousOutput.txid = C.txid commit ∧
          commit.output[txin.previousOutput.vout]? = some output ∧
          output.scriptPubkey = Spk.p2tr tkp.pubKey) ∧
    (∀ (C : Collab) (A : PlanArgs) (e : PlanError),
      createInscriptionTransactions C A = .error e →
      ¬ e = .assertAddressMismatch) := by
  constructor
  · intro C A spt commit txs tkps calls hB h j tx tkp htx htkp
    obtain ⟨hsel, preps, fees, fv, hp, hb, ⟨p0, hh, hfi⟩, hrl⟩ :=
      create_ok_inv C A spt commit txs tkps calls h
    obtain ⟨hlen, hspec⟩ :=
      revealLoop_ok_spec C A commit fv _ preps 0 txs tkps calls hrl
    have hjlen : j < preps.length := by
      have := (List.getElem?_eq_some_iff.mp htx).1
      omega
    obtain ⟨r, tx', tkp', call', h1, h2, h3, h4, h5⟩ := hspec j hjlen
    obtain rfl : tx' = tx := by
      rw [htx] at h2
      exact (Option.some.inj h2).symm
    obtain rfl : tkp' = tkp := by
      rw [htkp] at h3
      exact (Option.some.inj h3).symm
    rw [Nat.zero_add] at h5
    obtain ⟨hok, _⟩ := revealStep_ok_inv C A commit fv _ j r tx' tkp' call' h5
    obtain ⟨output, txin, out', g1, g2, g3, g4, g5, g6, g7, g8, g9, g10⟩ :=
      revealFinalTx_ok_inv C A commit fv _ j r tx' tkp' call' rfl hok
    have hmap := hB spt A.priorInscriptions (utxosMinusCursed A) _ A.alignment
      A.change A.commitFeeRate fees A.maxInputs A.ignoreUtxoInscriptions commit hb
      p0.commitAddr (head?_map_eq _ _ _ hh) fv hfi j (by simpa using hjlen)
    rw [List.getElem?_map, h1, Nat.add_comm fv j, g1] at hmap
    simp only [Option.map_some'] at hmap
    have hspk : output.scriptPubkey = r.commitAddr.spk := Option.some.inj hmap
    refine ⟨txin, output, g3, by rw [g4], by rw [g4]; exact g1, ?_⟩
    rw [hspk, ← g9]

  · intro C A e h
    exact create_no_mismatch C A e h

/-- Witness for C6: the sample plan's lone reveal spends a commit output
scripted to the recovery key's P2TR script, and a failing sample run errors
with something other than the address-mismatch assertion. -/
theorem claim6_addressConsistency_witness :
    (∃ (txin : TxIn) (output : TxOut),
      sampleRevealTx.input[(if sampleArgs.cursedOutpoint.isSome then 1 else 0)]?
        = some txin ∧
      txin.previousOutput.txid = sampleCollab.txid samplePlan.2.1 ∧
      samplePlan.2.1.output[txin.previousOutput.vout]? = some output ∧
      output.scriptPubkey = Spk.p2tr sampleTkp.pubKey) ∧
    ¬ (PlanError.noCardinalUtxos = PlanError.assertAddressMismatch) :=
  ⟨claim6_addressConsistency.1 sampleCollab sampleArgs samplePlan.1 samplePlan.2.1
      samplePlan.2.2.1 samplePlan.2.2.2.1 samplePlan.2.2.2.2
      sampleCollab_builderContract (by rfl) 0 sampleRevealTx sampleTkp
      (by rfl) (by rfl),
    claim6_addressConsistency.2 sampleCollab sampleArgsAllInscribed
      .noCardinalUtxos (by rfl)⟩

/-- C7: when the planner is called without a satpoint, any successful plan
uses, at byte offset zero, an outpoint of the utxo map that is neither
listed in the prior-inscriptions map nor equal to the cursed companion's
outpoint; and when every utxo is inscribed or cursed, the planner fails
with the message naming "no cardinal utxos". -/
theorem claim7_satpointSelection (C : Collab) (A : PlanArgs)
    (hnone : A.satpoint = none) :
    (∀ (spt : SatPoint) (commit : Transaction) (txs : List Transaction)
       (tkps : List TweakedKeyPair) (calls : List SigCall),
      createInscriptionTransactions C A = .ok (spt, commit, txs, tkps, calls) →
      spt.offset = 0 ∧
      (∃ (v : Nat), (spt.outpoint, v) ∈ A.utxos) ∧
      ¬ spt.outpoint ∈ (A.priorInscriptions.map fun p => p.1.outpoint) ∧
      ¬ A.cursedOutpoint = some spt.outpoint) ∧
    ((∀ p ∈ A.utxos,
        p.1 ∈ (A.priorInscriptions.map fun q => q.1.outpoint) ∨
          A.cursedOutpoint = some p.1) →
      ∃ e, createInscriptionTransactions C A = .error e ∧
        PlanError.message e = "wallet contains no cardinal utxos") := by
  constructor
  · intro spt commit txs tkps calls h
    have hsel := (create_ok_inv C A spt commit txs tkps calls h).1
    unfold selectSatpoint at hsel
    rw [hnone] at hsel
    simp only [] at hsel
    match hf : A.utxos.find? (fun p =>
        ¬ p.1 ∈ (A.priorInscriptions.map fun q => q.1.outpoint) ∧
          (A.cursedOutpoint.isNone ∨ ¬ A.cursedOutpoint = some p.1)) with
    | none => rw [hf] at hsel; exact absurd hsel (by simp)
    | some p =>
      rw [hf] at hsel
      simp only [Except.ok.injEq] at hsel
      subst hsel
      have hpred := List.find?_some hf
      simp only [decide_eq_true_eq] at hpred
      obtain ⟨hnm, hcur⟩ := hpred
      have hmem := List.mem_of_find?_eq_some hf
      refine ⟨rfl, ⟨p.2, hmem⟩, hnm, ?_⟩
      rcases hcur with hc | hc
      · rw [Option.isNone_iff_eq_none.mp hc]
        simp
      · exact hc
  · intro hall
    have hsel : selectSatpoint A = .error .noCardinalUtxos := by
      unfold selectSatpoint
      rw [hnone]
      simp only []
      rw [List.find?_eq_none.mpr ?_]
      intro x hx
      simp only [decide_eq_true_eq, not_and, not_or]
      intro hnm
      rcases hall x hx with hm | hc
      · exact absurd hm hnm
      · constructor
        · rw [hc]
          simp
        · exact not_not.mpr hc
    refine ⟨.noCardinalUtxos, ?_, rfl⟩
    unfold createInscriptionTransactions
    rw [hsel]

/-- Witness for C7: the satpoint chosen on the sample inputs without a
satpoint, and the failing run when the only utxo is inscribed. -/
theorem claim7_satpointSelection_witness :
    (samplePlanNoSat.1.offset = 0 ∧
      (∃ (v : Nat), (samplePlanNoSat.1.outpoint, v) ∈ sampleArgsNoSat.utxos) ∧
      ¬ samplePlanNoSat.1.outpoint ∈
        (sampleArgsNoSat.priorInscriptions.map fun p => p.1.outpoint) ∧
      ¬ sampleArgsNoSat.cursedOutpoint = some samplePlanNoSat.1.outpoint) ∧
    (∃ e, createInscriptionTransactions sampleCollab sampleArgsAllInscribed
        = .error e ∧
      PlanError.message e = "wallet contains no cardinal utxos") :=
  ⟨(claim7_satpointSelection sampleCollab sampleArgsNoSat rfl).1
      samplePlanNoSat.1 samplePlanNoSat.2.1 samplePlanNoSat.2.2.1
      samplePlanNoSat.2.2.2.1 samplePlanNoSat.2.2.2.2 (by rfl),
    (claim7_satpointSelection sampleCollab sampleArgsAllInscribed rfl).2
      (by decide)⟩

/-- C8: subtracting the recomputed reveal fee from the postage output fails
the plan with the underflow message when the fee exceeds the value and with
the dust message when the remainder is below the dust threshold; and in
every successful plan every reveal's postage output is at or above its dust
threshold. -/
theorem claim8_feeAndDust :
    (∀ (C : Collab) (A : PlanArgs) (commit : Transaction) (fv sp i : Nat)
       (r : RevealPrep) (output : TxOut) (tx0 : Transaction) (fee : Nat)
       (outSp : TxOut),
      revealBuildParts C A commit fv sp i r = .ok (output, tx0, fee) →
      tx0.output[sp]? = some outSp →
      ((outSp.value < fee →
        revealFinalTx C A commit fv sp i r = .error .revealFeeUnderflow) ∧
       (fee ≤ outSp.value →
        outSp.value - fee < C.dustValue outSp.scriptPubkey →
        revealFinalTx C A commit fv sp i r = .error .revealOutputDust))) ∧
    PlanError.message .revealFeeUnderflow =
      "reveal transaction output value insufficient to pay transaction fee" ∧
    PlanError.message .revealOutputDust =
      "reveal transaction output would be dust" ∧
    (∀ (C : Collab) (A : PlanArgs) (spt : SatPoint) (commit : Transaction)
       (txs : List Transaction) (tkps : List TweakedKeyPair) (calls : List SigCall),
      createInscriptionTransactions C A = .ok (spt, commit, txs, tkps, calls) →
      ∀ (j : Nat) (tx : Transaction), txs[j]? = some tx →
        ∃ (out' : TxOut),
          tx.output[(if A.cursedOutpoint.isSome then 1 else 0)]? = some out' ∧
          C.dustValue out'.scriptPubkey ≤ out'.value) := by
  refine ⟨?_, rfl, rfl, ?_⟩
  · intro C A commit fv sp i r output tx0 fee outSp hb hout
    constructor
    · intro hlt
      unfold revealFinalTx
      rw [hb]
      simp only []
      rw [hout]
      simp only []
      rw [if_pos hlt]
    · intro hge hdu
      unfold revealFinalTx
      rw [hb]
      simp only []
      rw [hout]
      simp only []
      rw [if_neg (Nat.not_lt.mpr hge)]
      rw [if_pos hdu]
  · intro C A spt commit txs tkps calls h j tx htx
    obtain ⟨hsel, preps, fees, fv, hp, hb, ⟨p0, hh, hfi⟩, hrl⟩ :=
      create_ok_inv C A spt commit txs tkps calls h
    obtain ⟨hlen, hspec⟩ :=
      revealLoop_ok_spec C A commit fv _ preps 0 txs tkps calls hrl
    have hjlen : j < preps.length := by
      have := (List.getElem?_eq_some_iff.mp htx).1
      omega
    obtain ⟨r, tx', tkp', call', h1, h2, h3, h4, h5⟩ := hspec j hjlen
    obtain rfl : tx' = tx := by
      rw [htx] at h2
      exact (Option.some.inj h2).symm
    rw [Nat.zero_add] at h5
    obtain ⟨hok, _⟩ := revealStep_ok_inv C A commit fv _ j r tx' tkp' call' h5
    obtain ⟨output, txin, out', g1, g2, g3, g4, g5, g6, g7, g8, g9, g10⟩ :=
      revealFinalTx_ok_inv C A commit fv _ j r tx' tkp' call' rfl hok
    exact ⟨out', g5, g7⟩

/-- Witness for C8: under the concrete fee-exhausting and dust-remainder
collaborators the reveal construction fails with exactly the underflow and
dust errors. -/
theorem claim8_feeAndDust_witness :
    revealFinalTx sampleCollabHugeFee sampleArgs sampleCommit 0 0 0 samplePrep =
      .error .revealFeeUnderflow ∧
    revealFinalTx sampleCollabDustFee sampleArgs sampleCommit 0 0 0 samplePrep =
      .error .revealOutputDust :=
  ⟨(claim8_feeAndDust.1 sampleCollabHugeFee sampleArgs sampleCommit 0 0 0
      samplePrep samplePartsHugeFee.1 samplePartsHugeFee.2.1 samplePartsHugeFee.2.2
      sampleOutSpHugeFee (by rfl) (by rfl)).1 (by decide),
   (claim8_feeAndDust.1 sampleCollabDustFee sampleArgs sampleCommit 0 0 0
      samplePrep samplePartsDustFee.1 samplePartsDustFee.2.1 samplePartsDustFee.2.2
      sampleOutSpDustFee (by rfl) (by rfl)).2 (by decide) (by decide)⟩

/-- C9: unless the bypass flag is set, a reveal whose measured weight
exceeds 400000 weight units is rejected with the error naming the
`MAX_STANDARD_TX_WEIGHT` bound; with the bypass set the same reveal is
accepted; and in every successful plan without the bypass every reveal's
weight is at most the bound. -/
theorem claim9_weightLimit :
    (∀ (C : Collab) (A : PlanArgs) (commit : Transaction) (fv sp i : Nat)
       (r : RevealPrep) (tx : Transaction) (tkp : TweakedKeyPair) (call : SigCall),
      revealFinalTx C A commit fv sp i r = .ok (tx, tkp, call) →
      ((¬ A.noLimit = true → maxStandardTxWeight < C.weight tx →
        revealStep C A commit fv sp i r =
          .error (.txWeightExceedsStandard (C.weight tx))) ∧
       (A.noLimit = true →
        revealStep C A commit fv sp i r = .ok (tx, tkp, call)))) ∧
    (∀ w, PlanError.message (.txWeightExceedsStandard w) =
      "reveal transaction weight greater than 400000 (MAX_STANDARD_TX_WEIGHT): " ++
        toString w) ∧
    maxStandardTxWeight = 400000 ∧
    (∀ (C : Collab) (A : PlanArgs) (spt : SatPoint) (commit : Transaction)
       (txs : List Transaction) (tkps : List TweakedKeyPair) (calls : List SigCall),
      ¬ A.noLimit = true →
      createInscriptionTransactions C A = .ok (spt, commit, txs, tkps, calls) →
      ∀ (j : Nat) (tx : Transaction),
        txs[j]? = some tx → C.weight tx ≤ maxStandardTxWeight) := by
  refine ⟨?_, fun w => rfl, rfl, ?_⟩
  · intro C A commit fv sp i r tx tkp call hf
    constructor
    · intro hnl hlt
      unfold revealStep
      rw [hf]
      simp only []
      rw [if_pos ⟨hnl, hlt⟩]
    · intro hnl
      unfold revealStep
      rw [hf]
      simp only []
      rw [if_neg (fun hc => hc.1 hnl)]
  · intro C A spt commit txs tkps calls hnl h j tx htx
    obtain ⟨hsel, preps, fees, fv, hp, hb, ⟨p0, hh, hfi⟩, hrl⟩ :=
      create_ok_inv C A spt commit txs tkps calls h
    obtain ⟨hlen, hspec⟩ :=
      revealLoop_ok_spec C A commit fv _ preps 0 txs tkps calls hrl
    have hjlen : j < preps.length := by
      have := (List.getElem?_eq_some_iff.mp htx).1
      omega
    obtain ⟨r, tx', tkp', call', h1, h2, h3, h4, h5⟩ := hspec j hjlen
    obtain rfl : tx' = tx := by
      rw [htx] at h2
      exact (Option.some.inj h2).symm
    obtain ⟨hok, hwt⟩ := revealStep_ok_inv C A commit fv _ _ r tx' tkp' call' h5
    rcases hwt with hw | hw
    · exact absurd hw hnl
    · exact hw

/-- Witness for C9: under the overweight collaborator the reveal step
rejects with the weight error, and with the bypass flag it accepts. -/
theorem claim9_weightLimit_witness :
    revealStep sampleCollabHugeWeight sampleArgs sampleCommit 0 0 0 samplePrep =
      .error (.txWeightExceedsStandard
        (sampleCollabHugeWeight.weight sampleFinalWeight.1)) ∧
    revealStep sampleCollabHugeWeight sampleArgsNoLimit sampleCommit 0 0 0
        samplePrep =
      .ok (sampleFinalNoLimit.1, sampleFinalNoLimit.2.1, sampleFinalNoLimit.2.2) :=
  ⟨(claim9_weightLimit.1 sampleCollabHugeWeight sampleArgs sampleCommit 0 0 0
      samplePrep sampleFinalWeight.1 sampleFinalWeight.2.1 sampleFinalWeight.2.2
      (by rfl)).1 (by decide) (by decide),
   (claim9_weightLimit.1 sampleCollabHugeWeight sampleArgsNoLimit sampleCommit 0 0 0
      samplePrep sampleFinalNoLimit.1 sampleFinalNoLimit.2.1 sampleFinalNoLimit.2.2
      (by rfl)).2 (by rfl)⟩

end OrdSpec
